import Mathlib

/-!
Verification development for the `awsl-pic-pipeline` repository.

The Python sources `awsl_pic_pipeline/storage.py`, `awsl_pic_pipeline/migration.py`
and `awsl_pic_pipeline/config.py` are shallowly embedded below: pure helpers become
Lean functions, the network is an explicit response oracle, the database is an
explicit state record, and Python exceptions become `Except` values.  Floating point
delays are modelled over `ℚ` (every value the code manipulates in the verified
claims is an integer, exactly representable).  The pydantic model declarations
(`Blob`, `Blobs`, `BlobGroup`, `UploadGroup`) live in a module that is not part of
the supplied sources; their record shapes are modelled from the specification's
data-model section and from how the sources construct and consume them.
-/

/-! ## Configuration (`config.py`) -/

/-- `Settings` from `config.py`: the process configuration record. -/
structure Settings where
  db_url : String
  migration_limit : Nat
  awsl_storage_url : Option String
  awsl_storage_api_token : Option String
  awsl_storage_chat_id : Option String
  enable_delete : Bool
  deriving DecidableEq

/-- Python truthiness of an `Optional[str]`: `None` and `""` are falsy. -/
def optStrTruthy : Option String → Bool
  | none => false
  | some s => !(s = "")

/-- The guard of `upload_media_group` (storage.py line 129):
`settings.awsl_storage_url` and `settings.awsl_storage_api_token` both truthy. -/
def storageConfigured (s : Settings) : Bool :=
  optStrTruthy s.awsl_storage_url && optStrTruthy s.awsl_storage_api_token

/-! ## Data model (pydantic models, modelled from the spec)

Modelled from the spec: the module `models/pydantic_models.py` is not in the
supplied sources.  Section 3 of the specification describes `ImageVariant (Blob)`
as `url`, optional `width`/`height`, optional `file_id`; `VariantSet (Blobs)` as a
mapping from variant-kind name to Blob with unique keys (Python dicts preserve
insertion order, so the mapping is an ordered association list); `BlobGroup` as
`id` (= pic_id), `awsl_id` and a VariantSet; `UploadGroup` as `awsl_id`, an ordered
sequence of BlobGroups and a caption. -/

/-- `Blob` (ImageVariant): one image variant. -/
structure Blob where
  url : String
  width : Option Int := none
  height : Option Int := none
  file_id : Option String := none
  deriving DecidableEq

/-- `Blobs` (VariantSet): insertion-ordered mapping variant kind ↦ Blob. -/
structure Blobs where
  blobs : List (String × Blob)
  deriving DecidableEq

/-- `BlobGroup`: one pic's upload unit. -/
structure BlobGroup where
  id : Nat
  awsl_id : Nat
  blobs : Blobs
  deriving DecidableEq

/-- `UploadGroup`: one social-post unit. -/
structure UploadGroup where
  awsl_id : Nat
  blob_groups : List BlobGroup
  caption : String
  deriving DecidableEq

/-! ## `storage.py`: remote file model and rendition collapse -/

/-- `TelegramFile` (storage.py lines 17-20). -/
structure TelegramFile where
  file_id : String
  width : Option Int := none
  height : Option Int := none
  deriving DecidableEq

/-- `BATCH_SIZE = 6` (storage.py line 23). -/
def BATCH_SIZE : Nat := 6

/-- `MAX_RETRIES = 10` (storage.py line 24). -/
def MAX_RETRIES : Nat := 10

/-- `RETRY_DELAY = 5.0` (storage.py line 25), exactly representable, modelled in ℚ. -/
def RETRY_DELAY : ℚ := 5

/-- Python truthiness of `f.width and f.height`: both present and nonzero. -/
def hasBothDims (f : TelegramFile) : Bool :=
  (match f.width with | some w => !(w = 0) | none => false) &&
  (match f.height with | some h => !(h = 0) | none => false)

/-- `f.width * f.height`, evaluated on files passing `hasBothDims`. -/
def area (f : TelegramFile) : Int :=
  f.width.getD 0 * f.height.getD 0

/-- Python `max(files_with_size, key=lambda f: f.width * f.height)`: left fold
keeping the current best, replacing only on a strictly larger key, so the first
maximal element wins ties. -/
def maxByAreaAux (best : TelegramFile) : List TelegramFile → TelegramFile
  | [] => best
  | f :: rest => if area f > area best then maxByAreaAux f rest else maxByAreaAux best rest

/-- `get_largest_file` (storage.py lines 60-67). -/
def get_largest_file (files : List TelegramFile) : Option TelegramFile :=
  if files.isEmpty then none
  else
    match files.filter hasBothDims with
    | f :: rest => some (maxByAreaAux f rest)
    | [] => files.getLast?

/-- The loop test of `get_first_file_over_800`: `f.width and f.width > 800` —
truthiness of the width (nonzero) is implied by `> 800`, `None` fails both. -/
def isOver800 (f : TelegramFile) : Bool :=
  (match f.width with | some w => decide (w > 800) | none => false) ||
  (match f.height with | some h => decide (h > 800) | none => false)

/-- The `for f in files` loop body of `get_first_file_over_800`; falls back to
`files[-1]` when no file matches. -/
def firstOver800Loop (files : List TelegramFile) : List TelegramFile → Option TelegramFile
  | [] => files.getLast?
  | f :: rest => if isOver800 f then some f else firstOver800Loop files rest

/-- `get_first_file_over_800` (storage.py lines 70-79). -/
def get_first_file_over_800 (files : List TelegramFile) : Option TelegramFile :=
  if files.isEmpty then none else firstOver800Loop files files

/-! ## `_parse_retry_after` (storage.py lines 29-50)

`re.search(r'retry after\s+(\d+(?:\.\d+)?)', error_msg, re.IGNORECASE)` followed by
`float(...)` on the matched digits.  The scan walks the message left to right and
tries the whole pattern at each position (re.search returns the leftmost match).
`\s` is modelled by the ASCII whitespace class Python uses on ASCII text; the parsed
decimal is returned exactly, in ℚ (integers below 2^53, the only values the claims
touch, convert to float exactly). -/

/-- ASCII `\s`: space, tab, newline, carriage return, vertical tab, form feed. -/
def isPySpace (c : Char) : Bool :=
  c = ' ' || c = '\t' || c = '\n' || c = '\x0d' || c = '\x0b' || c = '\x0c'

/-- Case-insensitive character comparison (`re.IGNORECASE` on ASCII). -/
def charCIEq (a b : Char) : Bool := a.toLower = b.toLower

/-- Case-insensitive literal prefix match; returns the rest on success. -/
def stripPrefixCI : List Char → List Char → Option (List Char)
  | [], rest => some rest
  | _ :: _, [] => none
  | p :: ps, c :: cs => if charCIEq p c then stripPrefixCI ps cs else none

/-- Value of a digit run, most significant first. -/
def digitsVal (ds : List Char) : Nat :=
  ds.foldl (fun acc c => 10 * acc + (c.toNat - '0'.toNat)) 0

/-- Value of a fractional digit run `ds` standing after the decimal point. -/
def fracVal (ds : List Char) : ℚ :=
  (digitsVal ds : ℚ) / ((10 : ℚ) ^ ds.length)

/-- Try the whole regex `retry after\s+(\d+(?:\.\d+)?)` anchored at this position;
`some q` is the float value of the captured group. -/
def tryMatchRetry (cs : List Char) : Option ℚ :=
  match stripPrefixCI "retry after".toList cs with
  | none => none
  | some rest =>
    let ws := rest.takeWhile isPySpace
    let rest1 := rest.dropWhile isPySpace
    if ws.isEmpty then none
    else
      let ds := rest1.takeWhile Char.isDigit
      let rest2 := rest1.dropWhile Char.isDigit
      if ds.isEmpty then none
      else
        match rest2 with
        | '.' :: r3 =>
          let fs := r3.takeWhile Char.isDigit
          if fs.isEmpty then some (digitsVal ds : ℚ)
          else some ((digitsVal ds : ℚ) + fracVal fs)
        | _ => some (digitsVal ds : ℚ)

/-- The left-to-right scan of `re.search`: first position where the pattern matches. -/
def scanRetry : List Char → Option ℚ
  | [] => none
  | c :: rest =>
    match tryMatchRetry (c :: rest) with
    | some v => some v
    | none => scanRetry rest

/-- `_parse_retry_after` (storage.py lines 29-50): `None` on empty input, else the
leftmost `retry after <number>` value. -/
def _parse_retry_after (error_msg : String) : Option ℚ :=
  if error_msg = "" then none
  else scanRetry error_msg.toList

/-- The delay computation of the rate-limit branch of `_upload_batch`
(storage.py lines 294-295): `retry_after if retry_after else RETRY_DELAY * (attempt + 1)`
— Python truthiness sends both `None` and `0.0` to the escalating fallback. -/
def rateLimitDelay (error_msg : String) (attempt : Nat) : ℚ :=
  match _parse_retry_after error_msg with
  | some t => if t ≠ 0 then t else RETRY_DELAY * (attempt + 1)
  | none => RETRY_DELAY * (attempt + 1)

/-! ## Substring test of the gif exclusion (migration.py line 99) -/

/-- Python `needle in hay` on lists of characters: some contiguous run equals
the needle. -/
def listContainsInfix (needle : List Char) : List Char → Bool
  | [] => needle.isEmpty
  | c :: rest => needle.isPrefixOf (c :: rest) || listContainsInfix needle rest

/-- Python `".gif" in url` as used by the candidate selector. -/
def strContainsSub (hay needle : String) : Bool :=
  listContainsInfix needle.toList hay.toList

/-! ## Upload orchestration (`upload_media_group`, storage.py lines 105-185)

The two remote endpoints reached through `_upload_batch` and `_upload_as_document`
are modelled as an oracle indexed by a call counter: `upload_media_group` consumes
batch-endpoint responses in call order and document-endpoint responses in call
order.  A `BatchUploadResult` is exactly the record the code uses; `files = none`
with `is_webpage_media_empty = true` is the unembeddable-media outcome, `files =
none` with `false` the exhausted-retries outcome. -/

/-- `UploadResult` (storage.py lines 105-108). -/
structure UploadResult where
  succeeded : List BlobGroup
  failed : List BlobGroup
  deriving DecidableEq

/-- `BatchUploadResult` (storage.py lines 111-114). -/
structure BatchUploadResult where
  files : Option (List (List TelegramFile))
  is_webpage_media_empty : Bool := false
  deriving DecidableEq

/-- Responses of the remote service: the `n`-th call of `_upload_batch` (with its
urls and caption) and the `n`-th call of `_upload_as_document` (with its url). -/
structure RemoteEnv where
  batch : Nat → List String → String → BatchUploadResult
  document : Nat → String → Option (List TelegramFile)

/-- Python exceptions escaping `upload_media_group`: the two `ValueError`s of the
entry guards, and the `IndexError` of `list(bg.blobs.blobs.values())[0]`. -/
inductive UploadErr where
  | configError
  | emptyGroupError
  | indexError
  deriving DecidableEq

/-- `build_telegram_url` (storage.py lines 53-57): raises when
`settings.awsl_storage_url` is not truthy; `rstrip('/')` drops all trailing
slashes. -/
def rstripSlash (s : String) : String :=
  ⟨(s.toList.reverse.dropWhile (· = '/')).reverse⟩

/-- `build_telegram_url` (storage.py lines 53-57). -/
def build_telegram_url (s : Settings) (file_id : String) : Except UploadErr String :=
  if optStrTruthy s.awsl_storage_url then
    .ok (rstripSlash (s.awsl_storage_url.getD "") ++ "/file/" ++ file_id)
  else .error .configError

/-- `_files_to_blobs` (storage.py lines 82-102): collapse the size renditions into
the "original"/"large" variant set. -/
def files_to_blobs (s : Settings) (files : List TelegramFile) : Except UploadErr Blobs := do
  let original ← match get_largest_file files with
    | some f => do
        let u ← build_telegram_url s f.file_id
        pure [("original", { url := u, file_id := some f.file_id,
                             width := f.width, height := f.height : Blob })]
    | none => pure []
  let large ← match get_first_file_over_800 files with
    | some f => do
        let u ← build_telegram_url s f.file_id
        pure [("large", { url := u, file_id := some f.file_id,
                          width := f.width, height := f.height : Blob })]
    | none => pure []
  pure ⟨original ++ large⟩

/-- The per-url individual-retry loop of the WEBPAGE_MEDIA_EMPTY branch
(storage.py lines 148-164): one single-url batch call per url, with document
fallback; exactly one entry (files or failure placeholder) is appended per url.
Returns the entries and the advanced batch/document call counters. -/
def individualRetries (env : RemoteEnv) (caption : String) :
    List String → Nat → Nat → List (Option (List TelegramFile)) × Nat × Nat
  | [], bc, dc => ([], bc, dc)
  | url :: rest, bc, dc =>
    let single := env.batch bc [url] caption
    match single.files with
    | some (f :: _) =>
      let (items, bc2, dc2) := individualRetries env caption rest (bc + 1) dc
      (some f :: items, bc2, dc2)
    | _ =>
      match env.document dc url with
      | some (d :: ds) =>
        let (items, bc2, dc2) := individualRetries env caption rest (bc + 1) (dc + 1)
        (some (d :: ds) :: items, bc2, dc2)
      | _ =>
        let (items, bc2, dc2) := individualRetries env caption rest (bc + 1) (dc + 1)
        (none :: items, bc2, dc2)

/-- The recursion behind the `urls[i:i+BATCH_SIZE]` slicing, structural on a fuel
argument so that it reduces definitionally; the fuel never runs out when it starts
at the list's length, and the `k = 0` branch is unreachable for `BATCH_SIZE = 6`
(Python `range` would raise on step 0) and only makes the function total. -/
def chunkListAux (k : Nat) : Nat → List α → List (List α)
  | _, [] => []
  | 0, _ :: _ => []
  | fuel + 1, a :: t =>
    if k = 0 then [a :: t]
    else (a :: t).take k :: chunkListAux k fuel ((a :: t).drop k)

/-- The `urls[i:i+BATCH_SIZE]` slicing (storage.py line 137). -/
def chunkList (k : Nat) (l : List α) : List (List α) :=
  chunkListAux k l.length l

/-- The `for batch_urls in batches` loop of `upload_media_group`
(storage.py lines 139-168), accumulating `all_files`. -/
def processBatches (env : RemoteEnv) (caption : String) :
    List (List String) → Nat → Nat → List (Option (List TelegramFile))
  | [], _, _ => []
  | b :: rest, bc, dc =>
    let r := env.batch bc b caption
    match r.files with
    | some fs => fs.map some ++ processBatches env caption rest (bc + 1) dc
    | none =>
      if r.is_webpage_media_empty then
        let (items, bc2, dc2) := individualRetries env caption b (bc + 1) dc
        items ++ processBatches env caption rest bc2 dc2
      else
        List.replicate b.length none ++ processBatches env caption rest (bc + 1) dc

/-- The final partition loop `for blob_group, files in zip(...)` (storage.py lines
173-182): Python `zip` truncates at the shorter list, and `if files:` sends both
`None` and `[]` to the failed side. -/
def collectResults (s : Settings) :
    List BlobGroup → List (Option (List TelegramFile)) →
    Except UploadErr (List BlobGroup × List BlobGroup)
  | [], _ => .ok ([], [])
  | _ :: _, [] => .ok ([], [])
  | bg :: bgs, f :: fs =>
    match f with
    | some (x :: xs) => do
      let b ← files_to_blobs s (x :: xs)
      let (suc, fl) ← collectResults s bgs fs
      .ok ({ id := bg.id, awsl_id := bg.awsl_id, blobs := b } :: suc, fl)
    | _ => do
      let (suc, fl) ← collectResults s bgs fs
      .ok (suc, bg :: fl)

/-- `list(bg.blobs.blobs.values())[0].url` (storage.py line 135): first value of the
variant mapping, raising `IndexError` when the mapping is empty. -/
def firstBlobUrl (bg : BlobGroup) : Except UploadErr String :=
  match bg.blobs.blobs with
  | (_, b) :: _ => .ok b.url
  | [] => .error .indexError

/-- The comprehension `[list(bg.blobs.blobs.values())[0].url for bg in
group.blob_groups]` (storage.py line 135), fully evaluated — raising on the first
empty variant mapping — before any batch is uploaded. -/
def extractUrls : List BlobGroup → Except UploadErr (List String)
  | [] => .ok []
  | bg :: rest => do
    let u ← firstBlobUrl bg
    let us ← extractUrls rest
    .ok (u :: us)

/-- `upload_media_group` (storage.py lines 117-185). -/
def upload_media_group (s : Settings) (env : RemoteEnv) (group : UploadGroup) :
    Except UploadErr UploadResult :=
  if !storageConfigured s then .error .configError
  else if group.blob_groups.isEmpty then .error .emptyGroupError
  else do
    let urls ← extractUrls group.blob_groups
    let batches := chunkList BATCH_SIZE urls
    let all_files := processBatches env group.caption batches 0 0
    let (suc, fl) ← collectResults s group.blob_groups all_files
    .ok { succeeded := suc, failed := fl }

/-! ## Candidate selector (`get_all_pic_to_upload`, migration.py lines 48-143)

The two-phase database query supplies joined rows `(pic, mblog, producer)`; the
selector logic below starts where the code receives those rows.  `json.loads` of
`pic.pic_info` and `mblog.re_user` is modelled by its outcome (a parse error or a
parsed JSON object), since JSON text decoding itself is library code.  A parsed
`pic_info` object is an association list of field name to entry, where an entry is
either a non-dict JSON value or a dict with the optional `url`/`width`/`height`
keys the code reads. -/

/-- `PIC_TYPES = ["original", "large"]` (migration.py line 19). -/
def PIC_TYPES : List String := ["original", "large"]

/-- `UPLOAD_DELAY = 3.0` (migration.py line 20), modelled in ℚ. -/
def UPLOAD_DELAY : ℚ := 3

/-- One field value of a parsed `pic_info` object: `isinstance(..., dict)` fails, or
a dict carrying the keys the code reads. -/
inductive PicEntry where
  | notDict
  | dict (url : Option String) (width height : Option Int)
  deriving DecidableEq

/-- Outcome of `json.loads(pic.pic_info) if pic.pic_info else {}`: a
`json.JSONDecodeError`, or the parsed object's fields (a falsy `pic_info` yields
`parsed []`). -/
inductive PicParse where
  | parseError
  | parsed (fields : List (String × PicEntry))
  deriving DecidableEq

/-- Outcome of `json.loads(mblog.re_user)`: a decode error or the parsed object's
optional `screen_name` (`.get("screen_name", "")` of a missing key is modelled by
`none`). -/
inductive ReUserParse where
  | parseError
  | parsed (screen_name : Option String)
  deriving DecidableEq

/-- The `Mblog` columns the selector reads. -/
structure MblogRow where
  uid : String
  mblogid : String
  re_user : Option ReUserParse
  deriving DecidableEq

/-- The `AwslProducer` columns the selector reads. -/
structure ProducerRow where
  uid : String
  name : Option String
  deriving DecidableEq

/-- One joined row `(pic, mblog, producer)` delivered by the selection query. -/
structure SelRow where
  pic_id : Nat
  awsl_id : Nat
  picInfo : PicParse
  mblog : Option MblogRow
  producer : Option ProducerRow
  deriving DecidableEq

/-- `pic_info[pic_type]` lookup: `none` when `pic_type not in pic_info`. -/
def lookupField (fields : List (String × PicEntry)) (t : String) : Option PicEntry :=
  (fields.find? (fun p => p.1 = t)).map (·.2)

/-- The per-type validity test of the selector loop (migration.py lines 95-101):
the entry must exist and be a dict, its `url` must be truthy and must not contain
`".gif"`.  On success, the blob data the code keeps. -/
def validEntry (fields : List (String × PicEntry)) (t : String) :
    Option (String × Option Int × Option Int) :=
  match lookupField fields t with
  | some (.dict (some url) w h) =>
    if url ≠ "" ∧ strContainsSub url ".gif" = false then some (url, w, h) else none
  | _ => none

/-- The `for pic_type in PIC_TYPES: ... break` loop (migration.py lines 94-133):
the first valid variant kind wins and the rest are not considered. -/
def selectVariant (fields : List (String × PicEntry)) :
    Option (String × String × Option Int × Option Int) :=
  PIC_TYPES.findSome? (fun t => (validEntry fields t).map (fun v => (t, v)))

/-- Whether a row contributes a BlobGroup: its `pic_info` parses and some variant
kind is valid. -/
def contributes (r : SelRow) : Bool :=
  match r.picInfo with
  | .parseError => false
  | .parsed fields => (selectVariant fields).isSome

/-- Caption construction for a new group (migration.py lines 116-131). -/
def buildCaption (r : SelRow) : String :=
  let wb_url : String :=
    match r.mblog with
    | some m => "https://weibo.com/" ++ m.uid ++ "/" ++ m.mblogid
    | none => ""
  let screen_name : String :=
    match r.mblog with
    | some m =>
      match m.re_user with
      | some (.parsed sn) => sn.getD ""
      | _ => ""
    | none => ""
  let screen_name2 : String :=
    if screen_name = "" then
      match r.producer with
      | some p => p.name.getD ""
      | none => ""
    else screen_name
  if screen_name2 ≠ "" then "#" ++ screen_name2 ++ " " ++ wb_url else wb_url

/-- The BlobGroup a contributing row appends (migration.py lines 104-114). -/
def rowBlobGroup (r : SelRow) (t url : String) (w h : Option Int) : BlobGroup :=
  { id := r.pic_id, awsl_id := r.awsl_id,
    blobs := ⟨[(t, { url := url, width := w, height := h, file_id := none })]⟩ }

/-- Append a BlobGroup to the group stored under `aid` in the insertion-ordered
`awsl_groups` dict. -/
def appendToGroup (acc : List (Nat × UploadGroup)) (aid : Nat) (bg : BlobGroup) :
    List (Nat × UploadGroup) :=
  acc.map (fun p =>
    if p.1 = aid then (p.1, { p.2 with blob_groups := p.2.blob_groups ++ [bg] }) else p)

/-- The body of `for pic, mblog, producer in pics` (migration.py lines 86-136),
acting on the insertion-ordered `awsl_groups` dict. -/
def stepRow (acc : List (Nat × UploadGroup)) (r : SelRow) : List (Nat × UploadGroup) :=
  match r.picInfo with
  | .parseError => acc
  | .parsed fields =>
    match selectVariant fields with
    | none => acc
    | some (t, url, w, h) =>
      let bg := rowBlobGroup r t url w h
      if (acc.find? (fun p => p.1 = r.awsl_id)).isSome then
        appendToGroup acc r.awsl_id bg
      else
        acc ++ [(r.awsl_id, { awsl_id := r.awsl_id, blob_groups := [bg],
                              caption := buildCaption r })]

/-- `get_all_pic_to_upload` (migration.py lines 48-143) from the joined rows:
`list(awsl_groups.values())` of the insertion-ordered dict built by the loop. -/
def get_all_pic_to_upload (rows : List SelRow) : List UploadGroup :=
  (rows.foldl stepRow []).map (·.2)

/-! ## Persistence, cleanup and the driver (migration.py lines 23-208)

The database is a state record: the `Pic` rows the soft-delete touches and the
`AwslBlobV2` rows `save_telegram_files` inserts. -/

/-- The `Pic` columns relevant to the soft-delete (`deleted`/`cleaned` are nullable
booleans). -/
structure PicRow where
  pic_id : Nat
  awsl_id : Nat
  pic_info : String
  deleted : Option Bool
  cleaned : Option Bool
  deriving DecidableEq

/-- One `AwslBlobV2` record written by `save_telegram_files`; `pic_info` holds the
serialized VariantSet. -/
structure BlobRecord where
  awsl_id : Nat
  pic_id : Nat
  pic_info : Blobs
  deriving DecidableEq

/-- Database state seen by the migration driver. -/
structure MigState where
  pics : List PicRow
  saved : List BlobRecord
  deriving DecidableEq

/-- `delete_pic` (migration.py lines 23-35): a logged no-op when
`settings.enable_delete` is false; otherwise every `Pic` row with the BlobGroup's
pic id gets `deleted = True` and `cleaned = True`. -/
def delete_pic (s : Settings) (blob_group : BlobGroup) (st : MigState) : MigState :=
  if !s.enable_delete then st
  else
    { st with pics := st.pics.map (fun p =>
        if p.pic_id = blob_group.id then { p with deleted := some true, cleaned := some true }
        else p) }

/-- `delete_upload_group` (migration.py lines 38-45). -/
def delete_upload_group (s : Settings) (group : UploadGroup) (st : MigState) : MigState :=
  if !s.enable_delete then st
  else group.blob_groups.foldl (fun st bg => delete_pic s bg st) st

/-- `save_telegram_files` (migration.py lines 146-160). -/
def save_telegram_files (blob_groups : List BlobGroup) (st : MigState) : MigState :=
  { st with saved := st.saved ++ blob_groups.map (fun bg =>
      { awsl_id := bg.awsl_id, pic_id := bg.id, pic_info := bg.blobs }) }

/-- Outcome of one `upload_group_to_telegram` call as the driver sees it: the
`UploadResult` returned by `upload_media_group`, or an exception escaping the
group's processing. -/
inductive GroupOutcome where
  | result (r : UploadResult)
  | raised
  deriving DecidableEq

/-- `upload_group_to_telegram` (migration.py lines 163-183) given the upload's
result: persist successes, soft-delete failures, return whether any pic
succeeded. -/
def upload_group_to_telegram (s : Settings) (r : UploadResult) (st : MigState) :
    Bool × MigState :=
  let st1 := if r.succeeded.isEmpty then st else save_telegram_files r.succeeded st
  let st2 := r.failed.foldl (fun st bg => delete_pic s bg st) st1
  (!r.succeeded.isEmpty, st2)

/-- The `try/except` body of the driver loop (migration.py lines 197-205) for one
group. -/
def migrationStep (s : Settings) (acc : MigState × Nat × Nat)
    (g : UploadGroup × GroupOutcome) : MigState × Nat × Nat :=
  let (st, success_count, fail_count) := acc
  match g.2 with
  | .result r =>
    let (ok, st2) := upload_group_to_telegram s r st
    if ok then (st2, success_count + 1, fail_count)
    else (st2, success_count, fail_count + 1)
  | .raised => (delete_upload_group s g.1 st, success_count, fail_count + 1)

/-- `migration` (migration.py lines 186-208) over the selected groups, with each
group's upload outcome given by `outs`: final database state, success count and
fail count. -/
def migration (s : Settings) (groups : List UploadGroup) (outs : List GroupOutcome)
    (st : MigState) : MigState × Nat × Nat :=
  (groups.zip outs).foldl (migrationStep s) (st, 0, 0)

/-- Well-formedness of the remote batch endpoint (spec section 6): a successful
batch response carries one rendition list per input url. -/
def WfEnv (env : RemoteEnv) : Prop :=
  ∀ n us cap fs, (env.batch n us cap).files = some fs → fs.length = us.length

/-! ## Helper lemmas -/

theorem maxByAreaAux_eq_or_mem (l : List TelegramFile) :
    ∀ best, maxByAreaAux best l = best ∨ maxByAreaAux best l ∈ l := by
  induction l with
  | nil => intro best; left; rfl
  | cons f rest ih =>
    intro best
    simp only [maxByAreaAux]
    by_cases h : area f > area best
    · simp only [h, if_pos]
      rcases ih f with h1 | h1
      · right; rw [h1]; exact List.mem_cons_self f rest
      · right; exact List.mem_cons_of_mem f h1
    · simp only [h, if_neg, if_false]
      rcases ih best with h1 | h1
      · left; exact h1
      · right; exact List.mem_cons_of_mem f h1

theorem le_area_maxByAreaAux (l : List TelegramFile) :
    ∀ best, area best ≤ area (maxByAreaAux best l) := by
  induction l with
  | nil => intro best; exact le_refl _
  | cons f rest ih =>
    intro best
    simp only [maxByAreaAux]
    by_cases h : area f > area best
    · simp only [h, if_pos]
      exact le_trans (le_of_lt h) (ih f)
    · simp only [h, if_neg, if_false]
      exact ih best

theorem maxByAreaAux_ge_mem (l : List TelegramFile) :
    ∀ best g, g ∈ l → area g ≤ area (maxByAreaAux best l) := by
  induction l with
  | nil => intro _ g hg; exact absurd hg (List.not_mem_nil g)
  | cons f rest ih =>
    intro best g hg
    simp only [maxByAreaAux]
    rcases List.mem_cons.mp hg with h1 | h1
    · subst h1
      by_cases h : area g > area best
      · simp only [h, if_pos]
        exact le_area_maxByAreaAux rest g
      · simp only [h, if_neg, if_false]
        exact le_trans (le_of_not_lt h) (le_area_maxByAreaAux rest best)
    · by_cases h : area f > area best
      · simp only [h, if_pos]; exact ih f g h1
      · simp only [h, if_neg, if_false]; exact ih best g h1

theorem firstOver800Loop_eq (files : List TelegramFile) :
    ∀ l, firstOver800Loop files l =
      match l.find? isOver800 with
      | some f => some f
      | none => files.getLast? := by
  intro l
  induction l with
  | nil => rfl
  | cons f rest ih =>
    simp only [firstOver800Loop, List.find?_cons]
    cases h : isOver800 f with
    | true => simp [h]
    | false => simp [h, ih]

theorem find?_eq_some_first {α : Type} {p : α → Bool} :
    ∀ {l : List α} {x : α}, l.find? p = some x →
      p x = true ∧ ∃ pre post, l = pre ++ x :: post ∧ ∀ g ∈ pre, p g = false := by
  intro l
  induction l with
  | nil => intro x hx; simp at hx
  | cons a rest ih =>
    intro x hx
    rw [List.find?_cons] at hx
    cases h : p a with
    | true =>
      simp only [h] at hx
      injection hx with hx; subst hx
      exact ⟨h, [], rest, rfl, by intro g hg; exact absurd hg (List.not_mem_nil g)⟩
    | false =>
      simp only [h] at hx
      obtain ⟨hpx, pre, post, hsplit, hpre⟩ := ih hx
      refine ⟨hpx, a :: pre, post, by rw [hsplit]; rfl, ?_⟩
      intro g hg
      rcases List.mem_cons.mp hg with h1 | h1
      · subst h1; exact h
      · exact hpre g h1

theorem getLast?_eq_some_of_ne_nil {α : Type} {l : List α} (h : l ≠ []) :
    ∃ x, l.getLast? = some x := by
  cases l with
  | nil => exact absurd rfl h
  | cons a rest => exact ⟨(a :: rest).getLast (by simp), List.getLast?_eq_getLast _ _⟩

/-! ## Claim theorems -/

/-- C2: for every non-empty list of remote files, `get_largest_file` ("original")
returns a member with maximal width×height product among the files carrying
dimensions, or the last file when none carry dimensions; `get_first_file_over_800`
("large") returns the first file whose width or height exceeds 800, or the last
file when none qualifies; on the renditions 100×100, 900×400, 300×300 both resolve
to the 900×400 rendition. -/
theorem c2_rendition_collapse (files : List TelegramFile) (hne : files ≠ []) :
    (∃ f, get_largest_file files = some f ∧
      ((∃ g ∈ files, hasBothDims g = true) →
        f ∈ files ∧ hasBothDims f = true ∧
        ∀ g ∈ files, hasBothDims g = true → area g ≤ area f) ∧
      ((∀ g ∈ files, hasBothDims g = false) → files.getLast? = some f)) ∧
    (∃ f, get_first_file_over_800 files = some f ∧
      ((∃ pre post, files = pre ++ f :: post ∧ isOver800 f = true ∧
          ∀ g ∈ pre, isOver800 g = false) ∨
        ((∀ g ∈ files, isOver800 g = false) ∧ files.getLast? = some f))) ∧
    get_largest_file [⟨"a", some 100, some 100⟩, ⟨"b", some 900, some 400⟩,
        ⟨"c", some 300, some 300⟩] = some ⟨"b", some 900, some 400⟩ ∧
    get_first_file_over_800 [⟨"a", some 100, some 100⟩, ⟨"b", some 900, some 400⟩,
        ⟨"c", some 300, some 300⟩] = some ⟨"b", some 900, some 400⟩ := by
  refine ⟨?_, ?_, by decide, by decide⟩
  · rw [get_largest_file, if_neg (by simpa using hne)]
    cases hf : files.filter hasBothDims with
    | nil =>
      obtain ⟨x, hx⟩ := getLast?_eq_some_of_ne_nil hne
      refine ⟨x, hx, ?_, fun _ => hx⟩
      rintro ⟨g, hg, hdim⟩
      have : g ∈ files.filter hasBothDims := List.mem_filter.mpr ⟨hg, hdim⟩
      rw [hf] at this
      exact absurd this (List.not_mem_nil g)
    | cons f0 rest =>
      refine ⟨maxByAreaAux f0 rest, rfl, ?_, ?_⟩
      · intro _
        have hmem : maxByAreaAux f0 rest ∈ files.filter hasBothDims := by
          rw [hf]
          rcases maxByAreaAux_eq_or_mem rest f0 with h1 | h1
          · rw [h1]; exact List.mem_cons_self f0 rest
          · exact List.mem_cons_of_mem f0 h1
        refine ⟨(List.mem_filter.mp hmem).1, (List.mem_filter.mp hmem).2, ?_⟩
        intro g hg hdim
        have : g ∈ files.filter hasBothDims := List.mem_filter.mpr ⟨hg, hdim⟩
        rw [hf] at this
        rcases List.mem_cons.mp this with h1 | h1
        · subst h1; exact le_area_maxByAreaAux rest g
        · exact maxByAreaAux_ge_mem rest f0 g h1
      · intro hall
        have hf0 : f0 ∈ files.filter hasBothDims := by rw [hf]; exact List.mem_cons_self f0 rest
        have := List.mem_filter.mp hf0
        rw [hall f0 this.1] at this
        exact absurd this.2 (by simp)
  · rw [get_first_file_over_800, if_neg (by simpa using hne), firstOver800Loop_eq]
    cases h : files.find? isOver800 with
    | some f =>
      obtain ⟨hpf, pre, post, hsplit, hpre⟩ := find?_eq_some_first h
      exact ⟨f, rfl, Or.inl ⟨pre, post, hsplit, hpf, hpre⟩⟩
    | none =>
      obtain ⟨x, hx⟩ := getLast?_eq_some_of_ne_nil hne
      refine ⟨x, hx, Or.inr ⟨?_, hx⟩⟩
      intro g hg
      exact Bool.eq_false_iff.mpr (List.find?_eq_none.mp h g hg)

/-- C2 witness: the theorem applied to the concrete renditions of the claim. -/
theorem c2_rendition_collapse_witness :
    get_largest_file [⟨"a", some 100, some 100⟩, ⟨"b", some 900, some 400⟩,
        ⟨"c", some 300, some 300⟩] = some ⟨"b", some 900, some 400⟩ ∧
    get_first_file_over_800 [⟨"a", some 100, some 100⟩, ⟨"b", some 900, some 400⟩,
        ⟨"c", some 300, some 300⟩] = some ⟨"b", some 900, some 400⟩ :=
  ⟨(c2_rendition_collapse [⟨"a", some 100, some 100⟩, ⟨"b", some 900, some 400⟩,
      ⟨"c", some 300, some 300⟩] (by decide)).2.2.1,
   (c2_rendition_collapse [⟨"a", some 100, some 100⟩, ⟨"b", some 900, some 400⟩,
      ⟨"c", some 300, some 300⟩] (by decide)).2.2.2⟩

theorem listContainsInfix_iff (needle : List Char) :
    ∀ hay, listContainsInfix needle hay = true ↔ needle <:+: hay := by
  intro hay
  induction hay with
  | nil =>
    simp only [listContainsInfix, List.isEmpty_iff, List.infix_nil]
  | cons c rest ih =>
    simp only [listContainsInfix, Bool.or_eq_true, List.infix_cons_iff,
      List.isPrefixOf_iff_prefix, ih]

/-- C10: the gif exclusion of the candidate selector is a substring test — the
check `".gif" in url` rejects a variant whenever the characters ".gif" occur
anywhere in its url, for example inside a longer extension such as ".gift" or in a
query string, not only as the url's file extension. -/
theorem c10_gif_substring :
    (∀ hay : String, strContainsSub hay ".gif" = true ↔ ".gif".toList <:+: hay.toList) ∧
    (∀ (fields : List (String × PicEntry)) (t url : String) (w h : Option Int),
      lookupField fields t = some (.dict (some url) w h) →
      ".gif".toList <:+: url.toList → validEntry fields t = none) ∧
    validEntry [("original", .dict (some "https://e.com/a.gift") none none)] "original"
      = none ∧
    validEntry [("original", .dict (some "https://e.com/a.jpg?fmt=.gif") none none)]
      "original" = none := by
  refine ⟨?_, ?_, by decide, by decide⟩
  · intro hay
    exact listContainsInfix_iff ".gif".toList hay.toList
  · intro fields t url w h hlook hinf
    have hsub : strContainsSub url ".gif" = true :=
      (listContainsInfix_iff ".gif".toList url.toList).mpr hinf
    simp [validEntry, hlook, hsub]

/-- C10 witness: a url whose extension is ".gift", not ".gif", is still rejected. -/
theorem c10_gif_substring_witness :
    validEntry [("large", PicEntry.dict (some "http://x/pic.gift") none none)] "large"
      = none :=
  c10_gif_substring.2.1 [("large", PicEntry.dict (some "http://x/pic.gift") none none)]
    "large" "http://x/pic.gift" none none (by decide) (by decide)

theorem get_congr_of_eq {α : Type} {l l2 : List α} (h : l = l2) (i : Nat)
    (hi : i < l.length) (hi2 : i < l2.length) : l.get ⟨i, hi⟩ = l2.get ⟨i, hi2⟩ := by
  subst h; rfl

/-- C8: when deletion is disabled, `delete_pic` is a no-op on the whole database
state; when enabled, it sets `deleted` and `cleaned` on exactly the pic rows whose
pic id matches the BlobGroup's id, leaves every other row untouched, and does not
touch the saved-blob records. -/
theorem c8_delete_pic (s : Settings) (bg : BlobGroup) (st : MigState) :
    (s.enable_delete = false → delete_pic s bg st = st) ∧
    (s.enable_delete = true →
      (delete_pic s bg st).saved = st.saved ∧
      (delete_pic s bg st).pics.length = st.pics.length ∧
      ∀ i (hi : i < st.pics.length) (hi2 : i < (delete_pic s bg st).pics.length),
        ((st.pics.get ⟨i, hi⟩).pic_id = bg.id →
          (delete_pic s bg st).pics.get ⟨i, hi2⟩ =
            { st.pics.get ⟨i, hi⟩ with deleted := some true, cleaned := some true }) ∧
        ((st.pics.get ⟨i, hi⟩).pic_id ≠ bg.id →
          (delete_pic s bg st).pics.get ⟨i, hi2⟩ = st.pics.get ⟨i, hi⟩)) := by
  constructor
  · intro h
    simp [delete_pic, h]
  · intro h
    have hpics : (delete_pic s bg st).pics = st.pics.map (fun p =>
        if p.pic_id = bg.id then { p with deleted := some true, cleaned := some true }
        else p) := by
      simp [delete_pic, h]
    have hsaved : (delete_pic s bg st).saved = st.saved := by
      simp [delete_pic, h]
    refine ⟨hsaved, by rw [hpics, List.length_map], ?_⟩
    intro i hi hi2
    constructor
    · intro hmatch
      rw [get_congr_of_eq hpics i hi2 (by rw [List.length_map]; exact hi)]
      simp only [List.get_eq_getElem, List.getElem_map]
      simp only [List.get_eq_getElem] at hmatch
      rw [if_pos hmatch]
    · intro hmatch
      rw [get_congr_of_eq hpics i hi2 (by rw [List.length_map]; exact hi)]
      simp only [List.get_eq_getElem, List.getElem_map]
      simp only [List.get_eq_getElem] at hmatch
      rw [if_neg hmatch]

/-- C8 witness: the theorem applied to a two-row database, deletion disabled and
enabled. -/
theorem c8_delete_pic_witness :
    (delete_pic ⟨"db", 50, none, none, none, false⟩ ⟨7, 1, ⟨[]⟩⟩
        ⟨[⟨7, 1, "i", none, none⟩, ⟨8, 1, "j", none, none⟩], []⟩ =
      ⟨[⟨7, 1, "i", none, none⟩, ⟨8, 1, "j", none, none⟩], []⟩) ∧
    (delete_pic ⟨"db", 50, none, none, none, true⟩ ⟨7, 1, ⟨[]⟩⟩
        ⟨[⟨7, 1, "i", none, none⟩, ⟨8, 1, "j", none, none⟩], []⟩).pics.get
        ⟨0, by simp [delete_pic]⟩ = ⟨7, 1, "i", some true, some true⟩ :=
  ⟨(c8_delete_pic ⟨"db", 50, none, none, none, false⟩ ⟨7, 1, ⟨[]⟩⟩
      ⟨[⟨7, 1, "i", none, none⟩, ⟨8, 1, "j", none, none⟩], []⟩).1 rfl,
   ((c8_delete_pic ⟨"db", 50, none, none, none, true⟩ ⟨7, 1, ⟨[]⟩⟩
      ⟨[⟨7, 1, "i", none, none⟩, ⟨8, 1, "j", none, none⟩], []⟩).2 rfl).2.2 0
      (by decide) (by simp [delete_pic]) |>.1 rfl⟩

theorem tryMatchRetry_nil : tryMatchRetry [] = none := by decide

theorem scanRetry_eq_none_iff :
    ∀ l, scanRetry l = none ↔ ∀ i, tryMatchRetry (l.drop i) = none := by
  intro l
  induction l with
  | nil =>
    simp only [scanRetry, List.drop_nil, true_iff]
    intro _
    exact tryMatchRetry_nil
  | cons c rest ih =>
    simp only [scanRetry]
    cases h : tryMatchRetry (c :: rest) with
    | some v =>
      simp only [reduceCtorEq, false_iff, not_forall]
      exact ⟨0, by simp [h]⟩
    | none =>
      simp only [ih]
      constructor
      · intro hall i
        cases i with
        | zero => simpa using h
        | succ j => simpa using hall j
      · intro hall j
        simpa using hall (j + 1)

theorem scanRetry_eq_some :
    ∀ l v, scanRetry l = some v →
      ∃ i, tryMatchRetry (l.drop i) = some v ∧
        ∀ j < i, tryMatchRetry (l.drop j) = none := by
  intro l
  induction l with
  | nil => intro v hv; simp [scanRetry] at hv
  | cons c rest ih =>
    intro v hv
    simp only [scanRetry] at hv
    cases h : tryMatchRetry (c :: rest) with
    | some w =>
      rw [h] at hv
      injection hv with hv; subst hv
      exact ⟨0, by simpa using h, by intro j hj; omega⟩
    | none =>
      rw [h] at hv
      obtain ⟨i, hi, hlt⟩ := ih v hv
      refine ⟨i + 1, by simpa using hi, ?_⟩
      intro j hj
      cases j with
      | zero => simpa using h
      | succ k => simpa using hlt k (by omega)

/-- C6: `_parse_retry_after` yields exactly 16 on "Too Many Requests: retry after
16"; it yields `none` exactly when no position of the message matches the pattern
`retry after <number>`, in which case the retry loop's delay is the escalating
backoff `RETRY_DELAY * (attempt + 1)`; when it yields a value, that value is the
number at the leftmost matching position. -/
theorem c6_parse_retry_after (msg : String) (attempt : Nat) :
    _parse_retry_after "Too Many Requests: retry after 16" = some 16 ∧
    (_parse_retry_after msg = none ↔ ∀ i, tryMatchRetry (msg.toList.drop i) = none) ∧
    (∀ v, _parse_retry_after msg = some v →
      ∃ i, tryMatchRetry (msg.toList.drop i) = some v ∧
        ∀ j < i, tryMatchRetry (msg.toList.drop j) = none) ∧
    (_parse_retry_after msg = none →
      rateLimitDelay msg attempt = RETRY_DELAY * (attempt + 1)) := by
  refine ⟨by decide, ?_, ?_, ?_⟩
  · by_cases h : msg = ""
    · subst h
      refine iff_of_true (by decide) ?_
      intro i
      rw [show ("".toList) = ([] : List Char) from rfl, List.drop_nil]
      exact tryMatchRetry_nil
    · rw [_parse_retry_after, if_neg h]
      exact scanRetry_eq_none_iff msg.toList
  · intro v hv
    rw [_parse_retry_after] at hv
    by_cases h : msg = ""
    · rw [if_pos h] at hv; exact absurd hv (by simp)
    · rw [if_neg h] at hv
      exact scanRetry_eq_some msg.toList v hv
  · intro h
    rw [rateLimitDelay, h]

/-- C6 witness: the theorem applied to the claim's rate-limit message and to a
message without the pattern, at attempt index 2. -/
theorem c6_parse_retry_after_witness :
    _parse_retry_after "Too Many Requests: retry after 16" = some 16 ∧
    rateLimitDelay "Internal Server Error" 2 = RETRY_DELAY * (2 + 1) :=
  ⟨(c6_parse_retry_after "" 0).1,
   (c6_parse_retry_after "Internal Server Error" 2).2.2.2 (by decide)⟩

theorem build_telegram_url_ok (s : Settings) (fid : String)
    (h : optStrTruthy s.awsl_storage_url = true) :
    build_telegram_url s fid =
      .ok (rstripSlash (s.awsl_storage_url.getD "") ++ "/file/" ++ fid) := by
  simp [build_telegram_url, h]

theorem files_to_blobs_ok (s : Settings) (files : List TelegramFile)
    (h : optStrTruthy s.awsl_storage_url = true) :
    ∃ b, files_to_blobs s files = .ok b := by
  cases hl : get_largest_file files with
  | none =>
    cases hf : get_first_file_over_800 files with
    | none => exact ⟨⟨[]⟩, by simp [files_to_blobs, hl, hf, Bind.bind, Except.bind,
        Pure.pure, Except.pure]⟩
    | some f =>
      exact ⟨⟨[("large", Blob.mk
          (rstripSlash (s.awsl_storage_url.getD "") ++ "/file/" ++ f.file_id)
          f.width f.height (some f.file_id))]⟩,
        by simp [files_to_blobs, hl, hf, Bind.bind, Except.bind,
          Pure.pure, Except.pure, build_telegram_url_ok s f.file_id h]⟩
  | some f =>
    cases hf : get_first_file_over_800 files with
    | none =>
      exact ⟨⟨[("original", Blob.mk
          (rstripSlash (s.awsl_storage_url.getD "") ++ "/file/" ++ f.file_id)
          f.width f.height (some f.file_id))]⟩,
        by simp [files_to_blobs, hl, hf, Bind.bind, Except.bind,
          Pure.pure, Except.pure, build_telegram_url_ok s f.file_id h]⟩
    | some f2 =>
      exact ⟨⟨[("original", Blob.mk
          (rstripSlash (s.awsl_storage_url.getD "") ++ "/file/" ++ f.file_id)
          f.width f.height (some f.file_id)),
          ("large", Blob.mk
          (rstripSlash (s.awsl_storage_url.getD "") ++ "/file/" ++ f2.file_id)
          f2.width f2.height (some f2.file_id))]⟩,
        by simp [files_to_blobs, hl, hf, Bind.bind, Except.bind,
          Pure.pure, Except.pure,
          build_telegram_url_ok s f.file_id h, build_telegram_url_ok s f2.file_id h]⟩

theorem collectResults_ok (s : Settings) (h : optStrTruthy s.awsl_storage_url = true) :
    ∀ (bgs : List BlobGroup) (fs : List (Option (List TelegramFile))),
      ∃ p, collectResults s bgs fs = .ok p := by
  intro bgs
  induction bgs with
  | nil => intro fs; exact ⟨([], []), rfl⟩
  | cons bg rest ih =>
    intro fs
    cases fs with
    | nil => exact ⟨([], []), rfl⟩
    | cons f fs2 =>
      obtain ⟨⟨suc, fl⟩, hrec⟩ := ih fs2
      match f with
      | some (x :: xs) =>
        obtain ⟨b, hb⟩ := files_to_blobs_ok s (x :: xs) h
        exact ⟨({ id := bg.id, awsl_id := bg.awsl_id, blobs := b } :: suc, fl),
          by simp [collectResults, hb, hrec, Bind.bind, Except.bind]⟩
      | some [] =>
        exact ⟨(suc, bg :: fl), by simp [collectResults, hrec, Bind.bind, Except.bind]⟩
      | none =>
        exact ⟨(suc, bg :: fl), by simp [collectResults, hrec, Bind.bind, Except.bind]⟩

theorem extractUrls_error_of_empty :
    ∀ (l : List BlobGroup), (∃ bg ∈ l, bg.blobs.blobs = []) →
      extractUrls l = .error .indexError := by
  intro l
  induction l with
  | nil => rintro ⟨bg, hm, _⟩; exact absurd hm (List.not_mem_nil bg)
  | cons bg rest ih =>
    rintro ⟨bg2, hm, hempty⟩
    rcases List.mem_cons.mp hm with h1 | h1
    · subst h1
      simp [extractUrls, firstBlobUrl, hempty, Bind.bind, Except.bind]
    · cases hfb : firstBlobUrl bg with
      | error e =>
        have : e = .indexError := by
          rw [firstBlobUrl] at hfb
          cases hb : bg.blobs.blobs with
          | nil => rw [hb] at hfb; injection hfb with hfb; exact hfb.symm
          | cons p r => rw [hb] at hfb; cases hfb
        subst this
        simp [extractUrls, hfb, Bind.bind, Except.bind]
      | ok u =>
        simp [extractUrls, hfb, ih ⟨bg2, h1, hempty⟩, Bind.bind, Except.bind]

theorem extractUrls_ok_of_nonempty :
    ∀ (l : List BlobGroup), (∀ bg ∈ l, bg.blobs.blobs ≠ []) →
      ∃ us, extractUrls l = .ok us ∧ us.length = l.length := by
  intro l
  induction l with
  | nil => intro _; exact ⟨[], rfl, rfl⟩
  | cons bg rest ih =>
    intro hall
    obtain ⟨us, hus, hlen⟩ := ih (fun b hb => hall b (List.mem_cons_of_mem bg hb))
    have hbg := hall bg (List.mem_cons_self bg rest)
    cases hb : bg.blobs.blobs with
    | nil => exact absurd hb hbg
    | cons p r =>
      refine ⟨p.2.url :: us, ?_, by simp [hlen]⟩
      simp [extractUrls, firstBlobUrl, hb, hus, Bind.bind, Except.bind]

theorem extractUrls_ok_length :
    ∀ (l : List BlobGroup) (us : List String), extractUrls l = .ok us →
      us.length = l.length := by
  intro l
  induction l with
  | nil => intro us h; injection h with h; subst h; rfl
  | cons bg rest ih =>
    intro us h
    cases hfb : firstBlobUrl bg with
    | error e =>
      simp only [extractUrls, hfb, Bind.bind, Except.bind] at h
      exact Except.noConfusion h
    | ok u =>
      simp only [extractUrls, hfb, Bind.bind, Except.bind] at h
      cases hrec : extractUrls rest with
      | error e => rw [hrec] at h; cases h
      | ok us2 =>
        rw [hrec] at h
        injection h with h
        subst h
        simp [ih us2 hrec]

theorem extractUrls_error_is_index :
    ∀ (l : List BlobGroup) (e : UploadErr), extractUrls l = .error e →
      e = .indexError := by
  intro l
  induction l with
  | nil => intro e h; cases h
  | cons bg rest ih =>
    intro e h
    cases hfb : firstBlobUrl bg with
    | error e2 =>
      simp only [extractUrls, hfb, Bind.bind, Except.bind] at h
      have h2 : e2 = .indexError := by
        rw [firstBlobUrl] at hfb
        cases hb : bg.blobs.blobs with
        | nil => rw [hb] at hfb; injection hfb with hfb; exact hfb.symm
        | cons p r => rw [hb] at hfb; cases hfb
      injection h with h
      rw [← h]
      exact h2
    | ok u =>
      simp only [extractUrls, hfb, Bind.bind, Except.bind] at h
      cases hrec : extractUrls rest with
      | error e2 =>
        rw [hrec] at h
        injection h with h
        rw [← h]
        exact ih e2 hrec
      | ok us2 => rw [hrec] at h; cases h

/-- C5: `upload_media_group` fails fast — independently of any remote response —
with the configuration error when the storage url or api token is not configured,
and with the validation error when the group has no BlobGroups; when both
preconditions hold, neither of these errors is raised. -/
theorem c5_fail_fast (s : Settings) (g : UploadGroup) :
    (storageConfigured s = false →
      ∀ env, upload_media_group s env g = .error .configError) ∧
    (storageConfigured s = true → g.blob_groups = [] →
      ∀ env, upload_media_group s env g = .error .emptyGroupError) ∧
    (storageConfigured s = true → g.blob_groups ≠ [] →
      ∀ env, upload_media_group s env g ≠ .error .configError ∧
        upload_media_group s env g ≠ .error .emptyGroupError) := by
  refine ⟨?_, ?_, ?_⟩
  · intro h env
    simp [upload_media_group, h]
  · intro h hempty env
    simp [upload_media_group, h, hempty]
  · intro h hne env
    have hurl : optStrTruthy s.awsl_storage_url = true :=
      (Bool.and_eq_true _ _).mp h |>.1
    have hni : g.blob_groups.isEmpty = false := by
      cases hg : g.blob_groups with
      | nil => exact absurd hg hne
      | cons a r => rfl
    cases hx : extractUrls g.blob_groups with
    | error e =>
      have he := extractUrls_error_is_index g.blob_groups e hx
      subst he
      constructor <;> simp [upload_media_group, h, hni, hx, Bind.bind, Except.bind]
    | ok urls =>
      obtain ⟨⟨suc, fl⟩, hcol⟩ :=
        collectResults_ok s hurl g.blob_groups
          (processBatches env g.caption (chunkList BATCH_SIZE urls) 0 0)
      constructor <;>
        simp [upload_media_group, h, hni, hx, hcol, Bind.bind, Except.bind]

/-- C5 witness: the theorem applied to an unconfigured settings record and to a
configured one with an empty and a non-empty group. -/
theorem c5_fail_fast_witness :
    (∀ env, upload_media_group ⟨"db", 50, none, none, none, false⟩ env
        ⟨1, [⟨2, 1, ⟨[("original", ⟨"u", none, none, none⟩)]⟩⟩], "c"⟩ =
      .error .configError) ∧
    (∀ env, upload_media_group ⟨"db", 50, some "http://s", some "t", none, false⟩ env
        ⟨1, [], "c"⟩ = .error .emptyGroupError) ∧
    (∀ env, upload_media_group ⟨"db", 50, some "http://s", some "t", none, false⟩ env
        ⟨1, [⟨2, 1, ⟨[("original", ⟨"u", none, none, none⟩)]⟩⟩], "c"⟩ ≠
      .error .configError) :=
  ⟨(c5_fail_fast ⟨"db", 50, none, none, none, false⟩
      ⟨1, [⟨2, 1, ⟨[("original", ⟨"u", none, none, none⟩)]⟩⟩], "c"⟩).1 rfl,
   (c5_fail_fast ⟨"db", 50, some "http://s", some "t", none, false⟩ ⟨1, [], "c"⟩).2.1
      rfl rfl,
   fun env => ((c5_fail_fast ⟨"db", 50, some "http://s", some "t", none, false⟩
      ⟨1, [⟨2, 1, ⟨[("original", ⟨"u", none, none, none⟩)]⟩⟩], "c"⟩).2.2 rfl
      (by decide) env).1⟩

/-- C9: with configured settings and a non-empty group, `upload_media_group`
raises the unhandled indexing error — before consulting the remote service at all
— exactly when some BlobGroup carries an empty variant mapping; when every
BlobGroup carries at least one variant the indexing error cannot occur. -/
theorem c9_empty_variant_mapping (s : Settings) (g : UploadGroup)
    (hcfg : storageConfigured s = true) (hne : g.blob_groups ≠ []) :
    ((∃ bg ∈ g.blob_groups, bg.blobs.blobs = []) →
      ∀ env, upload_media_group s env g = .error .indexError) ∧
    ((∀ bg ∈ g.blob_groups, bg.blobs.blobs ≠ []) →
      ∀ env, upload_media_group s env g ≠ .error .indexError) := by
  have hurl : optStrTruthy s.awsl_storage_url = true :=
    (Bool.and_eq_true _ _).mp hcfg |>.1
  have hni : g.blob_groups.isEmpty = false := by
    cases hg : g.blob_groups with
    | nil => exact absurd hg hne
    | cons a r => rfl
  constructor
  · intro hbad env
    have hx := extractUrls_error_of_empty g.blob_groups hbad
    simp [upload_media_group, hcfg, hni, hx, Bind.bind, Except.bind]
  · intro hgood env
    obtain ⟨us, hus, _⟩ := extractUrls_ok_of_nonempty g.blob_groups hgood
    obtain ⟨⟨suc, fl⟩, hcol⟩ :=
      collectResults_ok s hurl g.blob_groups
        (processBatches env g.caption (chunkList BATCH_SIZE us) 0 0)
    simp [upload_media_group, hcfg, hni, hus, hcol, Bind.bind, Except.bind]

/-- C9 witness: a group whose only BlobGroup has an empty variant mapping raises
the indexing error for a concrete remote oracle. -/
theorem c9_empty_variant_mapping_witness :
    upload_media_group ⟨"db", 50, some "http://s", some "t", none, false⟩
      ⟨fun _ _ _ => ⟨none, false⟩, fun _ _ => none⟩
      ⟨1, [⟨2, 1, ⟨[]⟩⟩], "c"⟩ = .error .indexError :=
  (c9_empty_variant_mapping ⟨"db", 50, some "http://s", some "t", none, false⟩
      ⟨1, [⟨2, 1, ⟨[]⟩⟩], "c"⟩ rfl (by decide)).1
    ⟨⟨2, 1, ⟨[]⟩⟩, List.mem_cons_self _ _, rfl⟩
    ⟨fun _ _ _ => ⟨none, false⟩, fun _ _ => none⟩

theorem chunkListAux_flatten {α : Type} (k : Nat) :
    ∀ (n : Nat) (l : List α), l.length ≤ n → (chunkListAux k n l).flatten = l := by
  intro n
  induction n with
  | zero =>
    intro l hl
    have h0 : l = [] := List.eq_nil_of_length_eq_zero (Nat.le_zero.mp hl)
    subst h0
    rfl
  | succ n ih =>
    intro l hl
    cases l with
    | nil => rfl
    | cons a t =>
      rw [chunkListAux]
      by_cases hk : k = 0
      · rw [if_pos hk]; simp
      · rw [if_neg hk]
        simp only [List.flatten_cons]
        have hlen : ((a :: t).drop k).length ≤ n := by
          rw [List.length_drop]
          have h2 : 1 ≤ k := Nat.one_le_iff_ne_zero.mpr hk
          simp only [List.length_cons] at hl ⊢
          omega
        rw [ih ((a :: t).drop k) hlen]
        exact List.take_append_drop k (a :: t)

theorem chunkList_flatten {α : Type} (k : Nat) (l : List α) :
    (chunkList k l).flatten = l :=
  chunkListAux_flatten k l.length l le_rfl

theorem individualRetries_spec (env : RemoteEnv) (caption : String) :
    ∀ (urls : List String) (bc dc : Nat),
      ∃ items bc2 dc2, individualRetries env caption urls bc dc = (items, bc2, dc2) ∧
        items.length = urls.length := by
  intro urls
  induction urls with
  | nil => intro bc dc; exact ⟨[], bc, dc, rfl, rfl⟩
  | cons url rest ih =>
    intro bc dc
    cases hs : (env.batch bc [url] caption).files with
    | some fs =>
      match fs with
      | f :: fr =>
        obtain ⟨items, b2, d2, hrec, hlen⟩ := ih (bc + 1) dc
        exact ⟨some f :: items, b2, d2,
          by simp [individualRetries, hs, hrec], by simp [hlen]⟩
      | [] =>
        cases hd : env.document dc url with
        | some ds =>
          match ds with
          | d :: dr =>
            obtain ⟨items, b2, d2, hrec, hlen⟩ := ih (bc + 1) (dc + 1)
            exact ⟨some (d :: dr) :: items, b2, d2,
              by simp [individualRetries, hs, hd, hrec], by simp [hlen]⟩
          | [] =>
            obtain ⟨items, b2, d2, hrec, hlen⟩ := ih (bc + 1) (dc + 1)
            exact ⟨none :: items, b2, d2,
              by simp [individualRetries, hs, hd, hrec], by simp [hlen]⟩
        | none =>
          obtain ⟨items, b2, d2, hrec, hlen⟩ := ih (bc + 1) (dc + 1)
          exact ⟨none :: items, b2, d2,
            by simp [individualRetries, hs, hd, hrec], by simp [hlen]⟩
    | none =>
      cases hd : env.document dc url with
      | some ds =>
        match ds with
        | d :: dr =>
          obtain ⟨items, b2, d2, hrec, hlen⟩ := ih (bc + 1) (dc + 1)
          exact ⟨some (d :: dr) :: items, b2, d2,
            by simp [individualRetries, hs, hd, hrec], by simp [hlen]⟩
        | [] =>
          obtain ⟨items, b2, d2, hrec, hlen⟩ := ih (bc + 1) (dc + 1)
          exact ⟨none :: items, b2, d2,
            by simp [individualRetries, hs, hd, hrec], by simp [hlen]⟩
      | none =>
        obtain ⟨items, b2, d2, hrec, hlen⟩ := ih (bc + 1) (dc + 1)
        exact ⟨none :: items, b2, d2,
          by simp [individualRetries, hs, hd, hrec], by simp [hlen]⟩

theorem processBatches_length (env : RemoteEnv) (caption : String) (hwf : WfEnv env) :
    ∀ (bs : List (List String)) (bc dc : Nat),
      (processBatches env caption bs bc dc).length = (bs.map List.length).sum := by
  intro bs
  induction bs with
  | nil => intro bc dc; rfl
  | cons b rest ih =>
    intro bc dc
    cases hr : (env.batch bc b caption).files with
    | some fs =>
      have hlen := hwf bc b caption fs hr
      simp [processBatches, hr, ih, hlen]
    | none =>
      cases hw : (env.batch bc b caption).is_webpage_media_empty with
      | true =>
        obtain ⟨items, b2, d2, hrec, hlen⟩ :=
          individualRetries_spec env caption b (bc + 1) dc
        simp [processBatches, hr, hw, hrec, hlen, ih]
      | false =>
        simp [processBatches, hr, hw, ih]

theorem collectResults_spec (s : Settings)
    (hurl : optStrTruthy s.awsl_storage_url = true) :
    ∀ (bgs : List BlobGroup) (fs : List (Option (List TelegramFile))),
      fs.length = bgs.length →
      ∃ suc fl, collectResults s bgs fs = .ok (suc, fl) ∧
        suc.length + fl.length = bgs.length ∧
        (suc.map BlobGroup.id ++ fl.map BlobGroup.id).Perm (bgs.map BlobGroup.id) ∧
        fl.Sublist bgs := by
  intro bgs
  induction bgs with
  | nil =>
    intro fs _
    exact ⟨[], [], rfl, rfl, by simp, List.Sublist.refl []⟩
  | cons bg rest ih =>
    intro fs hf
    cases fs with
    | nil => simp at hf
    | cons f fs2 =>
      have hf2 : fs2.length = rest.length := by simpa using hf
      obtain ⟨suc, fl, hcol, hcount, hperm, hsub⟩ := ih fs2 hf2
      match f with
      | some (x :: xs) =>
        obtain ⟨b, hb⟩ := files_to_blobs_ok s (x :: xs) hurl
        refine ⟨{ id := bg.id, awsl_id := bg.awsl_id, blobs := b } :: suc, fl,
          by simp [collectResults, hb, hcol, Bind.bind, Except.bind],
          by simp only [List.length_cons]; omega, ?_, ?_⟩
        · simp only [List.map_cons, List.cons_append]
          exact hperm.cons bg.id
        · exact hsub.cons bg
      | some [] =>
        refine ⟨suc, bg :: fl,
          by simp [collectResults, hcol, Bind.bind, Except.bind],
          by simp only [List.length_cons]; omega, ?_, ?_⟩
        · simp only [List.map_cons]
          exact List.perm_middle.trans (hperm.cons bg.id)
        · exact hsub.cons₂ bg
      | none =>
        refine ⟨suc, bg :: fl,
          by simp [collectResults, hcol, Bind.bind, Except.bind],
          by simp only [List.length_cons]; omega, ?_, ?_⟩
        · simp only [List.map_cons]
          exact List.perm_middle.trans (hperm.cons bg.id)
        · exact hsub.cons₂ bg

/-- C1: whenever `upload_media_group` returns a result — whatever mixture of batch
successes, unembeddable-media fallbacks and exhausted-retry failures the remote
produced, as long as batch successes answer one rendition list per url — the
result partitions the input: the sizes of `succeeded` and `failed` add up to the
input size, the multiset of pic ids is preserved, and when the input pic ids are
distinct no id appears on both sides. -/
theorem c1_upload_partition (s : Settings) (env : RemoteEnv) (g : UploadGroup)
    (r : UploadResult) (hwf : WfEnv env)
    (hok : upload_media_group s env g = .ok r) :
    r.succeeded.length + r.failed.length = g.blob_groups.length ∧
    (r.succeeded.map BlobGroup.id ++ r.failed.map BlobGroup.id).Perm
      (g.blob_groups.map BlobGroup.id) ∧
    ((g.blob_groups.map BlobGroup.id).Nodup →
      ∀ i ∈ r.succeeded.map BlobGroup.id, i ∉ r.failed.map BlobGroup.id) := by
  by_cases hcfg : storageConfigured s = true
  case neg =>
    have hcfg2 : storageConfigured s = false := by simpa using hcfg
    simp [upload_media_group, hcfg2] at hok
  case pos =>
    have hurl : optStrTruthy s.awsl_storage_url = true :=
      (Bool.and_eq_true _ _).mp hcfg |>.1
    cases hni : g.blob_groups.isEmpty with
    | true => simp [upload_media_group, hcfg, hni] at hok
    | false =>
      cases hx : extractUrls g.blob_groups with
      | error e =>
        simp [upload_media_group, hcfg, hni, hx, Bind.bind, Except.bind] at hok
      | ok urls =>
        have hulen := extractUrls_ok_length g.blob_groups urls hx
        have hflen : (processBatches env g.caption
            (chunkList BATCH_SIZE urls) 0 0).length = g.blob_groups.length := by
          rw [processBatches_length env g.caption hwf]
          have h1 : ((chunkList BATCH_SIZE urls).map List.length).sum =
              (chunkList BATCH_SIZE urls).flatten.length := by
            rw [List.length_flatten]
          rw [h1, chunkList_flatten, hulen]
        obtain ⟨suc, fl, hcol, hcount, hperm, hsub⟩ :=
          collectResults_spec s hurl g.blob_groups _ hflen
        simp only [upload_media_group, hcfg, hni, hx, hcol, Bind.bind, Except.bind,
          Bool.not_true, Bool.false_eq_true, if_false] at hok
        injection hok with hok
        subst hok
        refine ⟨hcount, hperm, ?_⟩
        intro hnd i hiS hiF
        have hnd2 : (suc.map BlobGroup.id ++ fl.map BlobGroup.id).Nodup :=
          (hperm.nodup_iff).mpr hnd
        exact (List.nodup_append.mp hnd2).2.2 hiS hiF

/-- C1 witness: a two-pic group uploaded against a remote that answers every
batch with one 100×100 rendition per url. -/
theorem c1_upload_partition_witness :
    (UploadResult.mk
      [⟨1, 9, ⟨[("original", ⟨"http://s/file/f", some 100, some 100, some "f"⟩),
                ("large", ⟨"http://s/file/f", some 100, some 100, some "f"⟩)]⟩⟩,
       ⟨2, 9, ⟨[("original", ⟨"http://s/file/f", some 100, some 100, some "f"⟩),
                ("large", ⟨"http://s/file/f", some 100, some 100, some "f"⟩)]⟩⟩]
      []).succeeded.length +
    (UploadResult.mk
      [⟨1, 9, ⟨[("original", ⟨"http://s/file/f", some 100, some 100, some "f"⟩),
                ("large", ⟨"http://s/file/f", some 100, some 100, some "f"⟩)]⟩⟩,
       ⟨2, 9, ⟨[("original", ⟨"http://s/file/f", some 100, some 100, some "f"⟩),
                ("large", ⟨"http://s/file/f", some 100, some 100, some "f"⟩)]⟩⟩]
      []).failed.length = 2 :=
  (c1_upload_partition ⟨"db", 50, some "http://s", some "t", none, false⟩
    ⟨fun _ us _ => ⟨some (us.map fun _ => [⟨"f", some 100, some 100⟩]), false⟩,
     fun _ _ => none⟩
    ⟨9, [⟨1, 9, ⟨[("original", ⟨"u1", none, none, none⟩)]⟩⟩,
         ⟨2, 9, ⟨[("original", ⟨"u2", none, none, none⟩)]⟩⟩], "cap"⟩
    (UploadResult.mk
      [⟨1, 9, ⟨[("original", ⟨"http://s/file/f", some 100, some 100, some "f"⟩),
                ("large", ⟨"http://s/file/f", some 100, some 100, some "f"⟩)]⟩⟩,
       ⟨2, 9, ⟨[("original", ⟨"http://s/file/f", some 100, some 100, some "f"⟩),
                ("large", ⟨"http://s/file/f", some 100, some 100, some "f"⟩)]⟩⟩]
      [])
    (fun n us cap fs h => by injection h with h2; rw [← h2]; simp)
    rfl).1

theorem validEntry_none_of_gif (fields : List (String × PicEntry)) (t : String)
    (hg : ∀ url w h, lookupField fields t = some (.dict (some url) w h) →
      strContainsSub url ".gif" = true) :
    validEntry fields t = none := by
  cases hl : lookupField fields t with
  | none => simp [validEntry, hl]
  | some e =>
    cases e with
    | notDict => simp [validEntry, hl]
    | dict url w h =>
      cases url with
      | none => simp [validEntry, hl]
      | some u => simp [validEntry, hl, hg u w h hl]

theorem appendToGroup_eq_of_not_mem (aid : Nat) (bg : BlobGroup) :
    ∀ (acc : List (Nat × UploadGroup)), aid ∉ acc.map Prod.fst →
      appendToGroup acc aid bg = acc := by
  intro acc
  induction acc with
  | nil => intro _; rfl
  | cons p rest ih =>
    intro hmem
    have h1 : p.1 ≠ aid := by
      intro h
      exact hmem (by simp [← h])
    have h2 : aid ∉ rest.map Prod.fst := by
      intro h
      exact hmem (by simp [h])
    simp only [appendToGroup, List.map_cons, if_neg h1]
    have h3 := ih h2
    rw [appendToGroup] at h3
    rw [h3]

theorem appendToGroup_sum (aid : Nat) (bg : BlobGroup) :
    ∀ (acc : List (Nat × UploadGroup)), (acc.map Prod.fst).Nodup →
      (acc.find? (fun p => p.1 = aid)).isSome →
      ((appendToGroup acc aid bg).map (fun p => p.2.blob_groups.length)).sum =
        (acc.map (fun p => p.2.blob_groups.length)).sum + 1 := by
  intro acc
  induction acc with
  | nil => intro _ hs; simp [List.find?_nil] at hs
  | cons p rest ih =>
    intro hnd hs
    rw [List.map_cons] at hnd
    have hnd2 := List.nodup_cons.mp hnd
    by_cases hp : p.1 = aid
    · have hnot : aid ∉ rest.map Prod.fst := by
        rw [← hp]
        exact hnd2.1
      have hrest := appendToGroup_eq_of_not_mem aid bg rest hnot
      simp only [appendToGroup, List.map_cons, if_pos hp]
      rw [appendToGroup] at hrest
      rw [hrest]
      simp only [List.map_cons, List.sum_cons, List.length_append, List.length_cons,
        List.length_nil]
      omega
    · rw [List.find?_cons] at hs
      have hcond : decide (p.1 = aid) = false := by simp [hp]
      rw [hcond] at hs
      have htail := ih hnd2.2 hs
      simp only [appendToGroup, List.map_cons, if_neg hp, List.sum_cons]
      rw [appendToGroup] at htail
      rw [htail]
      omega

theorem appendToGroup_keys (aid : Nat) (bg : BlobGroup) :
    ∀ (acc : List (Nat × UploadGroup)),
      (appendToGroup acc aid bg).map Prod.fst = acc.map Prod.fst := by
  intro acc
  induction acc with
  | nil => rfl
  | cons p rest ih =>
    simp only [appendToGroup, List.map_cons] at ih ⊢
    by_cases hp : p.1 = aid
    · rw [if_pos hp, ih]
    · rw [if_neg hp, ih]

theorem stepRow_eq_append (r : SelRow) (acc : List (Nat × UploadGroup))
    (fields : List (String × PicEntry)) (t url : String) (w h : Option Int)
    (hpi : r.picInfo = .parsed fields)
    (hsel : selectVariant fields = some (t, url, w, h))
    (hf : (acc.find? (fun p => p.1 = r.awsl_id)).isSome = true) :
    stepRow acc r = appendToGroup acc r.awsl_id (rowBlobGroup r t url w h) := by
  simp [stepRow, hpi, hsel, hf]

theorem stepRow_eq_new (r : SelRow) (acc : List (Nat × UploadGroup))
    (fields : List (String × PicEntry)) (t url : String) (w h : Option Int)
    (hpi : r.picInfo = .parsed fields)
    (hsel : selectVariant fields = some (t, url, w, h))
    (hf : ¬(acc.find? (fun p => p.1 = r.awsl_id)).isSome = true) :
    stepRow acc r = acc ++ [(r.awsl_id,
      { awsl_id := r.awsl_id, blob_groups := [rowBlobGroup r t url w h],
        caption := buildCaption r })] := by
  simp [stepRow, hpi, hsel, hf]

theorem stepRow_eq_skip (r : SelRow) (acc : List (Nat × UploadGroup))
    (hskip : contributes r = false) :
    stepRow acc r = acc := by
  cases hpi : r.picInfo with
  | parseError => simp [stepRow, hpi]
  | parsed fields =>
    simp only [contributes, hpi] at hskip
    cases hsel : selectVariant fields with
    | none => simp [stepRow, hpi, hsel]
    | some v => rw [hsel] at hskip; simp at hskip

theorem stepRow_keys_nodup (r : SelRow) (acc : List (Nat × UploadGroup))
    (hnd : (acc.map Prod.fst).Nodup) :
    ((stepRow acc r).map Prod.fst).Nodup := by
  cases hpi : r.picInfo with
  | parseError => simpa [stepRow, hpi] using hnd
  | parsed fields =>
    cases hsel : selectVariant fields with
    | none => simpa [stepRow, hpi, hsel] using hnd
    | some v =>
      obtain ⟨t, url, w, h⟩ := v
      by_cases hf : (acc.find? (fun p => p.1 = r.awsl_id)).isSome = true
      · rw [stepRow_eq_append r acc fields t url w h hpi hsel hf, appendToGroup_keys]
        exact hnd
      · rw [stepRow_eq_new r acc fields t url w h hpi hsel hf]
        have hnone : acc.find? (fun p => p.1 = r.awsl_id) = none :=
          Option.not_isSome_iff_eq_none.mp (by simpa using hf)
        have hnot : r.awsl_id ∉ acc.map Prod.fst := by
          intro hmem
          obtain ⟨p, hp, hfst⟩ := List.mem_map.mp hmem
          have := List.find?_eq_none.mp hnone p hp
          simp [hfst] at this
        simp only [List.map_append, List.map_cons, List.map_nil]
        rw [List.nodup_append]
        refine ⟨hnd, List.nodup_singleton _, ?_⟩
        intro a ha hb
        simp only [List.mem_singleton] at hb
        subst hb
        exact hnot ha

theorem stepRow_sum (r : SelRow) (acc : List (Nat × UploadGroup))
    (hnd : (acc.map Prod.fst).Nodup) :
    ((stepRow acc r).map (fun p => p.2.blob_groups.length)).sum =
      (acc.map (fun p => p.2.blob_groups.length)).sum +
        (if contributes r then 1 else 0) := by
  cases hc : contributes r with
  | false => rw [stepRow_eq_skip r acc hc]; simp
  | true =>
    cases hpi : r.picInfo with
    | parseError => simp only [contributes, hpi] at hc; cases hc
    | parsed fields =>
      simp only [contributes, hpi] at hc
      cases hsel : selectVariant fields with
      | none => rw [hsel] at hc; simp at hc
      | some v =>
        obtain ⟨t, url, w, h⟩ := v
        by_cases hf : (acc.find? (fun p => p.1 = r.awsl_id)).isSome = true
        · rw [stepRow_eq_append r acc fields t url w h hpi hsel hf]
          simp only [if_true]
          exact appendToGroup_sum r.awsl_id _ acc hnd hf
        · rw [stepRow_eq_new r acc fields t url w h hpi hsel hf]
          simp

theorem foldl_stepRow_sum :
    ∀ (rows : List SelRow) (acc : List (Nat × UploadGroup)),
      (acc.map Prod.fst).Nodup →
      ((rows.foldl stepRow acc).map (fun p => p.2.blob_groups.length)).sum =
        (acc.map (fun p => p.2.blob_groups.length)).sum + rows.countP contributes := by
  intro rows
  induction rows with
  | nil => intro acc _; simp
  | cons r rest ih =>
    intro acc hnd
    simp only [List.foldl_cons, List.countP_cons]
    rw [ih (stepRow acc r) (stepRow_keys_nodup r acc hnd), stepRow_sum r acc hnd]
    by_cases hc : contributes r <;> simp [hc] <;> omega

/-- C3: variant kinds are tried in priority order "original" then "large": a valid
"original" entry wins and "large" is not considered; when "original" is
missing/malformed/url-less/gif, the outcome is exactly what "large" yields; a kind
is skipped precisely when its entry has no dict with a truthy non-gif url; a pic
whose every variant-kind url contains ".gif" never produces a BlobGroup; and over
a whole selector run each pic contributes at most one BlobGroup — the total number
of BlobGroups equals the number of contributing rows. -/
theorem c3_variant_priority :
    (∀ fields v, validEntry fields "original" = some v →
      selectVariant fields = some ("original", v)) ∧
    (∀ fields, validEntry fields "original" = none →
      selectVariant fields = (validEntry fields "large").map (fun v => ("large", v))) ∧
    (∀ fields t, validEntry fields t = none ↔
      ∀ url w h, lookupField fields t = some (.dict (some url) w h) →
        url = "" ∨ strContainsSub url ".gif" = true) ∧
    (∀ (r : SelRow) (acc : List (Nat × UploadGroup)) fields,
      r.picInfo = .parsed fields →
      (∀ t ∈ PIC_TYPES, ∀ url w h,
        lookupField fields t = some (.dict (some url) w h) →
        strContainsSub url ".gif" = true) →
      stepRow acc r = acc) ∧
    (∀ rows : List SelRow,
      (((rows.foldl stepRow []).map (fun p => p.2.blob_groups.length)).sum =
        rows.countP contributes)) := by
  refine ⟨?_, ?_, ?_, ?_, ?_⟩
  · intro fields v h
    simp [selectVariant, PIC_TYPES, h]
  · intro fields h
    cases hl : validEntry fields "large" with
    | none => simp [selectVariant, PIC_TYPES, h, hl]
    | some v => simp [selectVariant, PIC_TYPES, h, hl]
  · intro fields t
    constructor
    · intro hnone url w h hl
      simp only [validEntry, hl] at hnone
      by_cases hu : url = ""
      · exact Or.inl hu
      · right
        by_cases hg : strContainsSub url ".gif" = true
        · exact hg
        · exfalso
          have hg2 : strContainsSub url ".gif" = false := by simpa using hg
          rw [if_pos ⟨hu, hg2⟩] at hnone
          cases hnone
    · intro hg
      cases hl : lookupField fields t with
      | none => simp [validEntry, hl]
      | some e =>
        cases e with
        | notDict => simp [validEntry, hl]
        | dict url w h =>
          cases url with
          | none => simp [validEntry, hl]
          | some u =>
            rcases hg u w h hl with h1 | h1
            · simp [validEntry, hl, h1]
            · simp [validEntry, hl, h1]
  · intro r acc fields hpi hg
    have h1 := validEntry_none_of_gif fields "original"
      (hg "original" (by simp [PIC_TYPES]))
    have h2 := validEntry_none_of_gif fields "large"
      (hg "large" (by simp [PIC_TYPES]))
    have hsel : selectVariant fields = none := by
      simp [selectVariant, PIC_TYPES, h1, h2]
    have hskip : contributes r = false := by
      simp [contributes, hpi, hsel]
    exact stepRow_eq_skip r acc hskip
  · intro rows
    have h := foldl_stepRow_sum rows [] (by simp)
    simpa using h

/-- C3 witness: a pic offering valid "original" and "large" variants uses
"original"; a pic whose every variant url contains ".gif" is dropped by the row
step. -/
theorem c3_variant_priority_witness :
    selectVariant [("original", PicEntry.dict (some "http://x/a.jpg") none none),
        ("large", PicEntry.dict (some "http://x/b.jpg") none none)] =
      some ("original", "http://x/a.jpg", none, none) ∧
    stepRow [] ⟨5, 9, PicParse.parsed
        [("original", PicEntry.dict (some "http://x/a.gif") none none),
         ("large", PicEntry.dict (some "http://x/b.gif?v=1") none none)],
        none, none⟩ = [] :=
  ⟨c3_variant_priority.1
      [("original", PicEntry.dict (some "http://x/a.jpg") none none),
       ("large", PicEntry.dict (some "http://x/b.jpg") none none)]
      ("http://x/a.jpg", none, none) (by decide),
   c3_variant_priority.2.2.2.1 ⟨5, 9, PicParse.parsed
        [("original", PicEntry.dict (some "http://x/a.gif") none none),
         ("large", PicEntry.dict (some "http://x/b.gif?v=1") none none)],
        none, none⟩ []
      [("original", PicEntry.dict (some "http://x/a.gif") none none),
       ("large", PicEntry.dict (some "http://x/b.gif?v=1") none none)] rfl
      (by
        intro t ht url w h hl
        have ht2 : t = "original" ∨ t = "large" := by simpa [PIC_TYPES] using ht
        rcases ht2 with rfl | rfl
        · rw [show lookupField
              [("original", PicEntry.dict (some "http://x/a.gif") none none),
               ("large", PicEntry.dict (some "http://x/b.gif?v=1") none none)]
              "original" =
            some (PicEntry.dict (some "http://x/a.gif") none none) from rfl] at hl
          injection hl with h1
          injection h1 with hu hw hh
          injection hu with hu
          subst hu
          decide
        · rw [show lookupField
              [("original", PicEntry.dict (some "http://x/a.gif") none none),
               ("large", PicEntry.dict (some "http://x/b.gif?v=1") none none)]
              "large" =
            some (PicEntry.dict (some "http://x/b.gif?v=1") none none) from rfl] at hl
          injection hl with h1
          injection h1 with hu hw hh
          injection hu with hu
          subst hu
          decide)⟩

theorem find?_append_some {α : Type} {p : α → Bool} {l1 l2 : List α} {x : α}
    (h : l1.find? p = some x) : (l1 ++ l2).find? p = some x := by
  rw [List.find?_append, h]
  rfl

theorem find?_append_none {α : Type} {p : α → Bool} {l1 l2 : List α}
    (h : l1.find? p = none) : (l1 ++ l2).find? p = l2.find? p := by
  rw [List.find?_append, h]
  cases l2.find? p <;> rfl

theorem find?_isSome_iff {α : Type} (p : α → Bool) :
    ∀ l : List α, (l.find? p).isSome = true ↔ ∃ x ∈ l, p x = true := by
  intro l
  induction l with
  | nil => simp [List.find?_nil]
  | cons a rest ih =>
    rw [List.find?_cons]
    cases h : p a with
    | true => simp [h]
    | false =>
      simp only [ih, List.mem_cons]
      constructor
      · rintro ⟨x, hx, hpx⟩
        exact ⟨x, Or.inr hx, hpx⟩
      · rintro ⟨x, hx | hx, hpx⟩
        · subst hx; rw [h] at hpx; cases hpx
        · exact ⟨x, hx, hpx⟩

theorem appendToGroup_mem (aid : Nat) (bg : BlobGroup) :
    ∀ (acc : List (Nat × UploadGroup)) (p : Nat × UploadGroup),
      p ∈ appendToGroup acc aid bg →
      ∃ q ∈ acc, p.1 = q.1 ∧ p.2.caption = q.2.caption ∧ p.2.awsl_id = q.2.awsl_id := by
  intro acc p hp
  rw [appendToGroup] at hp
  obtain ⟨q, hq, hfq⟩ := List.mem_map.mp hp
  by_cases hcond : q.1 = aid
  · rw [if_pos hcond] at hfq
    exact ⟨q, hq, by rw [← hfq], by rw [← hfq], by rw [← hfq]⟩
  · rw [if_neg hcond] at hfq
    exact ⟨q, hq, by rw [← hfq], by rw [← hfq], by rw [← hfq]⟩

theorem isSome_false_eq_none {α : Type} {o : Option α} (h : o.isSome = false) :
    o = none := by
  cases o with
  | none => rfl
  | some x => simp at h

theorem appendToGroup_find?_key (aid a : Nat) (bg : BlobGroup)
    (acc : List (Nat × UploadGroup)) :
    ((appendToGroup acc aid bg).find? (fun p => p.1 = a)).isSome =
      (acc.find? (fun p => p.1 = a)).isSome := by
  induction acc with
  | nil => rfl
  | cons q rest ih =>
    simp only [appendToGroup] at ih ⊢
    rw [List.map_cons, List.find?_cons, List.find?_cons]
    by_cases hq : q.1 = aid
    · rw [if_pos hq]
      by_cases ha : q.1 = a
      · simp [ha]
      · simpa [ha] using ih
    · rw [if_neg hq]
      by_cases ha : q.1 = a
      · simp [ha]
      · simpa [ha] using ih

theorem foldl_stepRow_caption :
    ∀ (rows processed : List SelRow) (acc : List (Nat × UploadGroup)),
      (∀ p ∈ acc, p.2.awsl_id = p.1 ∧
        ∃ r, processed.find? (fun r2 => contributes r2 && r2.awsl_id == p.1) = some r ∧
          p.2.caption = buildCaption r) →
      (∀ aid, (acc.find? (fun p => p.1 = aid)).isSome =
        (processed.find? (fun r2 => contributes r2 && r2.awsl_id == aid)).isSome) →
      ∀ p ∈ rows.foldl stepRow acc, p.2.awsl_id = p.1 ∧
        ∃ r, (processed ++ rows).find?
            (fun r2 => contributes r2 && r2.awsl_id == p.1) = some r ∧
          p.2.caption = buildCaption r := by
  intro rows
  induction rows with
  | nil =>
    intro processed acc h1 _ p hp
    simpa using h1 p hp
  | cons row rest ih =>
    intro processed acc h1 h2 p hp
    simp only [List.foldl_cons] at hp
    have hsplit : processed ++ row :: rest = (processed ++ [row]) ++ rest := by simp
    rw [hsplit]
    refine ih (processed ++ [row]) (stepRow acc row) ?_ ?_ p hp
    · -- invariant part 1 for the new accumulator
      cases hc : contributes row with
      | false =>
        rw [stepRow_eq_skip row acc hc]
        intro q hq
        obtain ⟨ha, r, hr, hcap⟩ := h1 q hq
        exact ⟨ha, r, find?_append_some hr, hcap⟩
      | true =>
        cases hpi : row.picInfo with
        | parseError => exact absurd hc (by simp [contributes, hpi])
        | parsed fields =>
          have hc2 : (selectVariant fields).isSome = true := by
            simpa [contributes, hpi] using hc
          cases hsel : selectVariant fields with
          | none => rw [hsel] at hc2; cases hc2
          | some v =>
            obtain ⟨t, url, w, h⟩ := v
            by_cases hf : (acc.find? (fun p => p.1 = row.awsl_id)).isSome = true
            · rw [stepRow_eq_append row acc fields t url w h hpi hsel hf]
              intro q hq
              obtain ⟨q0, hq0, hfst, hcap0, haid0⟩ :=
                appendToGroup_mem row.awsl_id _ acc q hq
              obtain ⟨ha, r, hr, hcap⟩ := h1 q0 hq0
              rw [hfst] at *
              exact ⟨by rw [haid0, ha], r, find?_append_some hr,
                by rw [hcap0, hcap]⟩
            · rw [stepRow_eq_new row acc fields t url w h hpi hsel hf]
              intro q hq
              rcases List.mem_append.mp hq with hq1 | hq1
              · obtain ⟨ha, r, hr, hcap⟩ := h1 q hq1
                exact ⟨ha, r, find?_append_some hr, hcap⟩
              · simp only [List.mem_singleton] at hq1
                subst hq1
                refine ⟨rfl, row, ?_, rfl⟩
                have hfn : acc.find? (fun p => p.1 = row.awsl_id) = none :=
                  Option.not_isSome_iff_eq_none.mp hf
                have h3 := h2 row.awsl_id
                rw [hfn] at h3
                have hnone : processed.find?
                    (fun r2 => contributes r2 && r2.awsl_id == row.awsl_id) = none :=
                  isSome_false_eq_none (by simpa using h3.symm)
                rw [find?_append_none hnone]
                simp [List.find?_cons, hc]
    · -- invariant part 2 for the new accumulator
      intro aid
      cases hc : contributes row with
      | false =>
        rw [stepRow_eq_skip row acc hc, h2 aid]
        cases hfind : processed.find?
            (fun r2 => contributes r2 && r2.awsl_id == aid) with
        | some r => rw [find?_append_some hfind]
        | none =>
          rw [find?_append_none hfind]
          simp [List.find?_cons, hc, hfind]
      | true =>
        cases hpi : row.picInfo with
        | parseError => exact absurd hc (by simp [contributes, hpi])
        | parsed fields =>
          have hc2 : (selectVariant fields).isSome = true := by
            simpa [contributes, hpi] using hc
          cases hsel : selectVariant fields with
          | none => rw [hsel] at hc2; cases hc2
          | some v =>
            obtain ⟨t, url, w, h⟩ := v
            by_cases hf : (acc.find? (fun p => p.1 = row.awsl_id)).isSome = true
            · rw [stepRow_eq_append row acc fields t url w h hpi hsel hf,
                appendToGroup_find?_key, h2 aid]
              cases hfind : processed.find?
                  (fun r2 => contributes r2 && r2.awsl_id == aid) with
              | some r => rw [find?_append_some hfind]
              | none =>
                rw [find?_append_none hfind]
                by_cases haid : row.awsl_id = aid
                · subst haid
                  rw [h2 row.awsl_id, hfind] at hf
                  simp at hf
                · simp [List.find?_cons, hc, haid]
            · rw [stepRow_eq_new row acc fields t url w h hpi hsel hf]
              by_cases haid : row.awsl_id = aid
              · subst haid
                have haccnone : acc.find? (fun p => p.1 = row.awsl_id) = none :=
                  Option.not_isSome_iff_eq_none.mp hf
                have h3 := h2 row.awsl_id
                rw [haccnone] at h3
                have hprocnone : processed.find?
                    (fun r2 => contributes r2 && r2.awsl_id == row.awsl_id) = none :=
                  isSome_false_eq_none (by simpa using h3.symm)
                rw [find?_append_none haccnone, find?_append_none hprocnone]
                simp [List.find?_cons, hc]
              · cases hacc : acc.find? (fun p => p.1 = aid) with
                | some q =>
                  rw [find?_append_some hacc]
                  have h3 := h2 aid
                  rw [hacc] at h3
                  obtain ⟨r, hr⟩ := Option.isSome_iff_exists.mp (h3.symm.trans rfl)
                  rw [find?_append_some hr]
                  rfl
                | none =>
                  rw [find?_append_none hacc]
                  have h3 := h2 aid
                  rw [hacc] at h3
                  have hfind : processed.find?
                      (fun r2 => contributes r2 && r2.awsl_id == aid) = none :=
                    isSome_false_eq_none (by simpa using h3.symm)
                  rw [find?_append_none hfind]
                  simp [List.find?_cons, haid, Ne.symm haid]

/-- C7: every UploadGroup emitted by the selector carries the caption computed
from the first row of its awsl_id that contributed a BlobGroup; that caption is
"#name url" with the repost-author screen_name when present and non-empty, else
with the producer's name, else the bare post url built from uid and mblogid (and
empty when the row has no post record and no name). -/
theorem c7_caption_derivation (rows : List SelRow) (g : UploadGroup)
    (hg : g ∈ get_all_pic_to_upload rows) :
    (∃ r, rows.find? (fun r2 => contributes r2 && r2.awsl_id == g.awsl_id) = some r ∧
      g.caption = buildCaption r) ∧
    (∀ (r : SelRow) (m : MblogRow) (sn : String), r.mblog = some m →
      m.re_user = some (.parsed (some sn)) → sn ≠ "" →
      buildCaption r = "#" ++ sn ++ " " ++
        ("https://weibo.com/" ++ m.uid ++ "/" ++ m.mblogid)) ∧
    (∀ (r : SelRow) (m : MblogRow) (p : ProducerRow) (pn : String),
      r.mblog = some m →
      (∀ sn, m.re_user = some (.parsed (some sn)) → sn = "") →
      r.producer = some p → p.name = some pn → pn ≠ "" →
      buildCaption r = "#" ++ pn ++ " " ++
        ("https://weibo.com/" ++ m.uid ++ "/" ++ m.mblogid)) ∧
    (∀ (r : SelRow) (m : MblogRow), r.mblog = some m →
      (∀ sn, m.re_user = some (.parsed (some sn)) → sn = "") →
      (∀ (p : ProducerRow) pn, r.producer = some p → p.name = some pn → pn = "") →
      buildCaption r = "https://weibo.com/" ++ m.uid ++ "/" ++ m.mblogid) := by
  refine ⟨?_, ?_, ?_, ?_⟩
  · rw [get_all_pic_to_upload] at hg
    obtain ⟨p, hp, hpg⟩ := List.mem_map.mp hg
    obtain ⟨haid, r, hr, hcap⟩ :=
      foldl_stepRow_caption rows [] [] (by intro q hq; cases hq)
        (by intro aid; rfl) p hp
    rw [List.nil_append] at hr
    subst hpg
    rw [haid]
    exact ⟨r, hr, hcap⟩
  · intro r m sn hm hru hs
    simp [buildCaption, hm, hru, hs]
  · intro r m p pn hm hsn hp hpn hne
    have hscreen : (match m.re_user with
        | some (.parsed sn) => sn.getD ""
        | _ => "") = "" := by
      cases hru : m.re_user with
      | none => rfl
      | some ru =>
        cases ru with
        | parseError => rfl
        | parsed sno =>
          cases sno with
          | none => rfl
          | some sn => exact hsn sn hru
    simp [buildCaption, hm, hp, hpn, hne, hscreen]
  · intro r m hm hsn hpn
    have hscreen : (match m.re_user with
        | some (.parsed sn) => sn.getD ""
        | _ => "") = "" := by
      cases hru : m.re_user with
      | none => rfl
      | some ru =>
        cases ru with
        | parseError => rfl
        | parsed sno =>
          cases sno with
          | none => rfl
          | some sn => exact hsn sn hru
    have hprod : (match r.producer with
        | some p => p.name.getD ""
        | none => "") = "" := by
      cases hp : r.producer with
      | none => rfl
      | some p =>
        cases hn : p.name with
        | none => simp [hn]
        | some pn => simp [hn, hpn p pn hp hn]
    simp [buildCaption, hm, hscreen, hprod]

/-- C7 witness: a single contributing row with repost author "alice" yields a
group whose caption is derived from that row. -/
theorem c7_caption_derivation_witness :
    ∃ r, [(⟨5, 9, PicParse.parsed
          [("original", PicEntry.dict (some "http://x/a.jpg") none none)],
        some ⟨"42", "ABC", some (ReUserParse.parsed (some "alice"))⟩,
        none⟩ : SelRow)].find?
        (fun r2 => contributes r2 && r2.awsl_id ==
          (⟨9, [⟨5, 9, ⟨[("original", ⟨"http://x/a.jpg", none, none, none⟩)]⟩⟩],
            "#alice https://weibo.com/42/ABC"⟩ : UploadGroup).awsl_id) = some r ∧
      (⟨9, [⟨5, 9, ⟨[("original", ⟨"http://x/a.jpg", none, none, none⟩)]⟩⟩],
        "#alice https://weibo.com/42/ABC"⟩ : UploadGroup).caption = buildCaption r :=
  (c7_caption_derivation
    [⟨5, 9, PicParse.parsed
        [("original", PicEntry.dict (some "http://x/a.jpg") none none)],
      some ⟨"42", "ABC", some (ReUserParse.parsed (some "alice"))⟩, none⟩]
    ⟨9, [⟨5, 9, ⟨[("original", ⟨"http://x/a.jpg", none, none, none⟩)]⟩⟩],
      "#alice https://weibo.com/42/ABC"⟩
    (by decide)).1

theorem delete_pic_saved (s : Settings) (bg : BlobGroup) (st : MigState) :
    (delete_pic s bg st).saved = st.saved := by
  by_cases h : s.enable_delete <;> simp [delete_pic, h]

theorem delete_pic_pics (s : Settings) (bg : BlobGroup) (st : MigState) :
    (delete_pic s bg st).pics = st.pics.map (fun q =>
      if s.enable_delete = true ∧ q.pic_id ∈ [bg.id]
      then { q with deleted := some true, cleaned := some true } else q) := by
  cases h : s.enable_delete with
  | false => simp [delete_pic, h]
  | true =>
    have hstep : (delete_pic s bg st).pics = st.pics.map (fun p =>
        if p.pic_id = bg.id then { p with deleted := some true, cleaned := some true }
        else p) := by
      simp [delete_pic, h]
    rw [hstep]
    apply List.map_congr_left
    intro q _
    by_cases hq : q.pic_id = bg.id
    · simp [hq, h]
    · simp [hq, h]

theorem mark_merge (e : Bool) (ids1 ids2 : List Nat) :
    ∀ pics : List PicRow,
      (pics.map (fun q => if e = true ∧ q.pic_id ∈ ids1
          then { q with deleted := some true, cleaned := some true } else q)).map
        (fun q => if e = true ∧ q.pic_id ∈ ids2
          then { q with deleted := some true, cleaned := some true } else q) =
      pics.map (fun q => if e = true ∧ q.pic_id ∈ ids1 ++ ids2
        then { q with deleted := some true, cleaned := some true } else q) := by
  intro pics
  rw [List.map_map]
  apply List.map_congr_left
  intro q _
  simp only [Function.comp_apply]
  by_cases he : e = true
  · by_cases m1 : q.pic_id ∈ ids1 <;> by_cases m2 : q.pic_id ∈ ids2 <;>
      simp [he, m1, m2, List.mem_append]
  · simp [he]

theorem foldl_delete_saved (s : Settings) :
    ∀ (bgs : List BlobGroup) (st : MigState),
      (bgs.foldl (fun st bg => delete_pic s bg st) st).saved = st.saved := by
  intro bgs
  induction bgs with
  | nil => intro st; rfl
  | cons bg rest ih =>
    intro st
    simp only [List.foldl_cons]
    rw [ih (delete_pic s bg st), delete_pic_saved]

theorem foldl_delete_pics (s : Settings) :
    ∀ (bgs : List BlobGroup) (st : MigState),
      (bgs.foldl (fun st bg => delete_pic s bg st) st).pics =
        st.pics.map (fun q =>
          if s.enable_delete = true ∧ q.pic_id ∈ bgs.map BlobGroup.id
          then { q with deleted := some true, cleaned := some true } else q) := by
  intro bgs
  induction bgs with
  | nil => intro st; simp
  | cons bg rest ih =>
    intro st
    simp only [List.foldl_cons]
    rw [ih (delete_pic s bg st), delete_pic_pics, mark_merge]
    simp

theorem delete_upload_group_saved (s : Settings) (g : UploadGroup) (st : MigState) :
    (delete_upload_group s g st).saved = st.saved := by
  cases h : s.enable_delete with
  | false => simp [delete_upload_group, h]
  | true =>
    simp only [delete_upload_group, h, Bool.not_true, Bool.false_eq_true, if_false]
    exact foldl_delete_saved s g.blob_groups st

theorem delete_upload_group_pics (s : Settings) (g : UploadGroup) (st : MigState) :
    (delete_upload_group s g st).pics = st.pics.map (fun q =>
      if s.enable_delete = true ∧ q.pic_id ∈ g.blob_groups.map BlobGroup.id
      then { q with deleted := some true, cleaned := some true } else q) := by
  cases h : s.enable_delete with
  | false => simp [delete_upload_group, h]
  | true =>
    have hstep : delete_upload_group s g st =
        g.blob_groups.foldl (fun st bg => delete_pic s bg st) st := by
      simp [delete_upload_group, h]
    rw [hstep]
    have h2 := foldl_delete_pics s g.blob_groups st
    rw [h] at h2
    exact h2

theorem upload_group_to_telegram_effects (s : Settings) (r : UploadResult)
    (st : MigState) :
    (upload_group_to_telegram s r st).1 = !r.succeeded.isEmpty ∧
    (upload_group_to_telegram s r st).2.saved =
      st.saved ++ r.succeeded.map (fun bg =>
        ({ awsl_id := bg.awsl_id, pic_id := bg.id, pic_info := bg.blobs } : BlobRecord)) ∧
    (upload_group_to_telegram s r st).2.pics = st.pics.map (fun q =>
      if s.enable_delete = true ∧ q.pic_id ∈ r.failed.map BlobGroup.id
      then { q with deleted := some true, cleaned := some true } else q) := by
  refine ⟨rfl, ?_, ?_⟩
  · rw [upload_group_to_telegram]
    simp only
    rw [foldl_delete_saved]
    cases he : r.succeeded.isEmpty with
    | true =>
      rw [if_pos rfl]
      have : r.succeeded = [] := List.isEmpty_iff.mp he
      simp [this]
    | false =>
      rw [if_neg (by simp)]
      simp [save_telegram_files]
  · rw [upload_group_to_telegram]
    simp only
    rw [foldl_delete_pics]
    cases he : r.succeeded.isEmpty with
    | true => rw [if_pos rfl]
    | false =>
      rw [if_neg (by simp)]
      rfl

theorem migration_fold (s : Settings) :
    ∀ (l : List (UploadGroup × GroupOutcome)) (st : MigState) (sc fc : Nat)
      (st2 : MigState) (sc2 fc2 : Nat),
      l.foldl (migrationStep s) (st, sc, fc) = (st2, sc2, fc2) →
      sc2 + fc2 = sc + fc + l.length ∧
      sc2 = sc + l.countP (fun p => match p.2 with
        | .result r => !r.succeeded.isEmpty
        | .raised => false) ∧
      st2.saved = st.saved ++ (l.map (fun p => match p.2 with
        | .result r => r.succeeded.map (fun bg =>
            ({ awsl_id := bg.awsl_id, pic_id := bg.id, pic_info := bg.blobs } : BlobRecord))
        | .raised => [])).flatten ∧
      st2.pics = st.pics.map (fun q =>
        if s.enable_delete = true ∧ q.pic_id ∈ (l.map (fun p => match p.2 with
            | .result r => r.failed.map BlobGroup.id
            | .raised => p.1.blob_groups.map BlobGroup.id)).flatten
        then { q with deleted := some true, cleaned := some true } else q) := by
  intro l
  induction l with
  | nil =>
    intro st sc fc st2 sc2 fc2 h
    simp only [List.foldl_nil] at h
    injection h with h1 h23
    injection h23 with h2 h3
    subst h1; subst h2; subst h3
    refine ⟨by simp, by simp, by simp, ?_⟩
    simp
  | cons p rest ih =>
    obtain ⟨g, o⟩ := p
    intro st sc fc st2 sc2 fc2 h
    simp only [List.foldl_cons] at h
    cases o with
    | result r =>
      have hstep : migrationStep s (st, sc, fc) (g, .result r) =
          (if (upload_group_to_telegram s r st).1
            then ((upload_group_to_telegram s r st).2, sc + 1, fc)
            else ((upload_group_to_telegram s r st).2, sc, fc + 1)) := by
        rcases hu : upload_group_to_telegram s r st with ⟨ok, st1⟩
        simp [migrationStep, hu]
      obtain ⟨hfst, hsaved, hpics⟩ := upload_group_to_telegram_effects s r st
      rw [hstep, hfst] at h
      cases hemp : r.succeeded.isEmpty with
      | false =>
        rw [hemp] at h
        simp only [Bool.not_false, if_true] at h
        obtain ⟨hcnt, hsc, hsv, hpc⟩ :=
          ih (upload_group_to_telegram s r st).2 (sc + 1) fc st2 sc2 fc2 h
        refine ⟨by simp only [List.length_cons]; omega, ?_, ?_, ?_⟩
        · rw [hsc]
          simp [List.countP_cons, hemp]
          try omega
        · rw [hsv, hsaved]
          simp [List.flatten_cons, List.append_assoc]
        · rw [hpc, hpics, mark_merge]
          simp [List.flatten_cons]
      | true =>
        rw [hemp] at h
        simp only [Bool.not_true, Bool.false_eq_true, if_false] at h
        obtain ⟨hcnt, hsc, hsv, hpc⟩ :=
          ih (upload_group_to_telegram s r st).2 sc (fc + 1) st2 sc2 fc2 h
        refine ⟨by simp only [List.length_cons]; omega, ?_, ?_, ?_⟩
        · rw [hsc]
          simp [List.countP_cons, hemp]
          try omega
        · rw [hsv, hsaved]
          simp [List.flatten_cons, List.append_assoc]
        · rw [hpc, hpics, mark_merge]
          simp [List.flatten_cons]
    | raised =>
      have hstep : migrationStep s (st, sc, fc) (g, .raised) =
          (delete_upload_group s g st, sc, fc + 1) := by
        simp [migrationStep]
      rw [hstep] at h
      obtain ⟨hcnt, hsc, hsv, hpc⟩ :=
        ih (delete_upload_group s g st) sc (fc + 1) st2 sc2 fc2 h
      refine ⟨by simp only [List.length_cons]; omega, ?_, ?_, ?_⟩
      · rw [hsc]
        simp only [List.countP_cons]
        simp
      · rw [hsv, delete_upload_group_saved]
        simp [List.flatten_cons]
      · rw [hpc, delete_upload_group_pics, mark_merge]
        simp [List.flatten_cons]

/-- C4: the migration driver processes the groups in sequence; the final tally
satisfies success + fail = total, a group counts as a success exactly when its
upload outcome carried at least one succeeded pic, the successes of every
result-bearing group are persisted in order, and the pics soft-deleted over the
whole run are exactly the failed pics of result-bearing groups together with all
pics of groups whose processing raised — an error in one group never prevents the
remaining groups from being processed. -/
theorem c4_migration_driver (s : Settings) (groups : List UploadGroup)
    (outs : List GroupOutcome) (st st2 : MigState) (sc fc : Nat)
    (hlen : outs.length = groups.length)
    (hrun : migration s groups outs st = (st2, sc, fc)) :
    sc + fc = groups.length ∧
    sc = (groups.zip outs).countP (fun p => match p.2 with
      | .result r => !r.succeeded.isEmpty
      | .raised => false) ∧
    st2.saved = st.saved ++ ((groups.zip outs).map (fun p => match p.2 with
      | .result r => r.succeeded.map (fun bg =>
          ({ awsl_id := bg.awsl_id, pic_id := bg.id, pic_info := bg.blobs } : BlobRecord))
      | .raised => [])).flatten ∧
    st2.pics = st.pics.map (fun q =>
      if s.enable_delete = true ∧ q.pic_id ∈ ((groups.zip outs).map (fun p => match p.2 with
          | .result r => r.failed.map BlobGroup.id
          | .raised => p.1.blob_groups.map BlobGroup.id)).flatten
      then { q with deleted := some true, cleaned := some true } else q) := by
  have hz : (groups.zip outs).length = groups.length := by
    rw [List.length_zip, hlen, Nat.min_self]
  obtain ⟨hcnt, hsc, hsv, hpc⟩ :=
    migration_fold s (groups.zip outs) st 0 0 st2 sc fc hrun
  refine ⟨by omega, by simpa using hsc, hsv, hpc⟩

/-- C4 witness: two groups, the first succeeding and the second raising, against
a one-row database with deletion enabled. -/
theorem c4_migration_driver_witness :
    (1 : Nat) + 1 = ([⟨1, [⟨10, 1, ⟨[]⟩⟩], "c1"⟩,
      (⟨2, [⟨20, 2, ⟨[]⟩⟩], "c2"⟩ : UploadGroup)] : List UploadGroup).length :=
  (c4_migration_driver ⟨"db", 50, none, none, none, true⟩
    [⟨1, [⟨10, 1, ⟨[]⟩⟩], "c1"⟩, ⟨2, [⟨20, 2, ⟨[]⟩⟩], "c2"⟩]
    [.result ⟨[⟨10, 1, ⟨[]⟩⟩], []⟩, .raised]
    ⟨[⟨20, 2, "i", none, none⟩], []⟩
    ⟨[⟨20, 2, "i", some true, some true⟩], [⟨1, 10, ⟨[]⟩⟩]⟩
    1 1 rfl rfl).1
